import Mathlib

/-!
Verification of the dispatch core of the jonson JSON-RPC server framework.

This file shallowly embeds the per-call Context (value slots, lazy resolution,
cycle detection, ordered finalization), the provider Factory, the internal
call / impersonation forking rules, endpoint-name parsing and formatting,
params decoding strictness, the auth Private token, and the per-method HTTP
status mapping, and proves the specified properties about them.

Conventions of the embedding:
- Go reflect.Type identities become the inductive TypeId.
- Go interface values stored in Context slots become the inductive Val; the
  marker interfaces Shareable / ShareableAcrossImpersonation / Finalizeable
  become boolean-valued capabilities read off a Val, exactly matching which
  concrete Go types implement them (e.g. Impersonated embeds Shareable,
  Private implements none).
- Go strings are modeled as List Char (ASCII, which covers the identifier
  grammar involved).
- Go panics become the Panic inductive propagated in an Except; panic
  recovery points in the source correspond to places where the model
  inspects the Except.
- Stateful methods on *Context become pure functions from Ctx to Ctx plus
  observable outputs; instrumentation fields (provider-invocation logs,
  finalizer-invocation logs) record event orders that the Go code performs
  by side effect.
- Mutable pointer identity of a *Context is modeled by an opaque selfTag;
  NewContext receives a fresh tag.
-/

set_option linter.unusedVariables false
set_option linter.unnecessarySeqFocus false

namespace Jonson

/-- Type identities (Go reflect.Type values used as slot keys).
The named constructors mirror the TypeXyz variables of the source
(TypeContext, TypeRpcMeta, TypeHttpRequest, TypeHttpResponseWriter,
TypeWSClient, TypeImpersonated, TypeImpersonator, TypePrivate, TypePublic,
TypeSecret, TypeJsonHandler); `other n` stands for further user types that
pass Require's ptr-to-struct-or-interface kind check, and `badKindId n`
for types that fail it. -/
inductive TypeId : Type where
  | context
  | rpcMeta
  | httpRequest
  | httpResponseWriter
  | wsClient
  | impersonated
  | impersonator
  | privateTok
  | publicTok
  | secretTok
  | jsonHandler
  | other (n : Nat)
  | badKindId (n : Nat)
deriving DecidableEq

/-- Mirrors the kind check in Context.Require: inst must be a pointer to a
struct or an interface. All the named framework types satisfy it. -/
def TypeId.kindOk : TypeId → Bool
  | .badKindId _ => false
  | _ => true

/-- Mirrors the Error struct of error.go: Code, Message and the optional
Data pointer. Data is (Path, Details, Debug) as in ErrorData; nil Data is
`none`. -/
inductive RpcErr : Type where
  | mk : Int → String → Option (List String × List RpcErr × String) → RpcErr

def RpcErr.code : RpcErr → Int
  | .mk c _ _ => c

def RpcErr.message : RpcErr → String
  | .mk _ m _ => m

def RpcErr.data : RpcErr → Option (List String × List RpcErr × String)
  | .mk _ _ d => d

/-- The Details list of the error data, when Data is present. -/
def RpcErr.details : RpcErr → Option (List RpcErr)
  | .mk _ _ none => none
  | .mk _ _ (some (_, ds, _)) => some ds

/-- The Debug string of the error data, when Data is present. -/
def RpcErr.debugText : RpcErr → Option String
  | .mk _ _ none => none
  | .mk _ _ (some (_, _, dbg)) => some dbg

/-- Mirrors Error.CloneWithData: copy of the error with Data replaced. -/
def RpcErr.cloneWithData (e : RpcErr) (d : List String × List RpcErr × String) : RpcErr :=
  .mk e.code e.message (some d)

/-- Mirrors Error.Error() of error.go: message plus the code in parens. -/
def RpcErr.errText (e : RpcErr) : String :=
  e.message ++ " (" ++ toString e.code ++ ")"

/-- The well-known error values of rpc.go. -/
def errParse : RpcErr := .mk (-32700) "Parse error" none

def errMethodNotFound : RpcErr := .mk (-32601) "Method not found" none

def errInvalidParams : RpcErr := .mk (-32602) "Invalid params" none

def errInternal : RpcErr := .mk (-32603) "Internal error" none

def errServerMethodNotAllowed : RpcErr := .mk (-32000) "Server error: method not allowed" none

def errUnauthorized : RpcErr := .mk (-32001) "Not authorized" none

def errUnauthenticated : RpcErr := .mk (-32002) "Not authenticated" none

def errTooManyRequests : RpcErr := .mk (-32003) "Too many requests" none

/-- A Go error interface value: either a *jonson.Error or some other error
(modeled by its message, as produced by errors.New / fmt.Errorf). -/
inductive GoErr : Type where
  | rpcErr (e : RpcErr)
  | plain (s : String)

mutual

/-- Structural equality on RpcErr. Go compares error interface values with
==, which for pointers is pointer identity; in every comparison the source
performs (Finalize's `errors[0] == err`), the compared value is the very
value that was stored, so structural equality coincides with it there. -/
def RpcErr.beq : RpcErr → RpcErr → Bool
  | .mk c1 m1 none, .mk c2 m2 none => c1 == c2 && m1 == m2
  | .mk c1 m1 (some (p1, l1, g1)), .mk c2 m2 (some (p2, l2, g2)) =>
      c1 == c2 && m1 == m2 && p1 == p2 && g1 == g2 && RpcErr.beqList l1 l2
  | _, _ => false

def RpcErr.beqList : List RpcErr → List RpcErr → Bool
  | [], [] => true
  | a :: as, b :: bs => RpcErr.beq a b && RpcErr.beqList as bs
  | _, _ => false

end

def GoErr.beq : GoErr → GoErr → Bool
  | .rpcErr a, .rpcErr b => RpcErr.beq a b
  | .plain a, .plain b => a == b
  | _, _ => false

/-- Mirrors GoErr's Error() text (Error.Error for *Error, message otherwise). -/
def GoErr.errText : GoErr → String
  | .rpcErr e => e.errText
  | .plain s => s

/-- Mirrors HttpStatusCode of rpc.go (the switch over r.Code, with its
fallthroughs expanded). -/
def httpStatusCode (r : RpcErr) : Nat :=
  if r.code = errServerMethodNotAllowed.code then 405
  else if r.code = errInvalidParams.code then 400
  else if r.code = errParse.code then 400
  else if r.code = errUnauthorized.code then 403
  else if r.code = errUnauthenticated.code then 403
  else if r.code = errMethodNotFound.code then 404
  else if r.code = errTooManyRequests.code then 429
  else 500

/-- RpcHttpMethod of rpc.go. -/
inductive RpcHttpMethod : Type where
  | get
  | post
  | unknown
deriving DecidableEq

/-- RpcSource of rpc.go. -/
inductive RpcSource : Type where
  | http
  | httpRpc
  | ws
  | internal
deriving DecidableEq

/-- A value stored in a Context slot (Go: the `val any` field of valueItem).

- `ctxSelf` is the *Context pointer the Context stores for itself under
  TypeContext in NewContext.
- `generic id share shareImp fin finErr` stands for any other provided
  value: `share` / `shareImp` say whether its type implements Shareable /
  ShareableAcrossImpersonation, `fin` whether it implements Finalizeable,
  and `finErr` the error its Finalize returns (the source lets Finalize
  observe the error list collected so far; values whose result depends on
  that list are not needed by any property proved here). `id` is an
  observation tag used to record finalization order.
- the remaining constructors are the concrete framework values whose
  capabilities matter to the proved properties: Impersonated (embeds
  Shareable, carries accountUuid and the accountUuids trace), Private
  (no markers, carries accountUuid), RpcMeta (no markers). -/
inductive Val : Type where
  | ctxSelf
  | generic (id : Nat) (share : Bool) (shareImp : Bool) (fin : Bool) (finErr : Option GoErr)
  | impersonatedVal (accountUuid : String) (accountUuids : List String)
  | privateVal (accountUuid : String)
  | rpcMetaVal (method : String) (httpMethod : RpcHttpMethod) (source : RpcSource)

/-- Does the dynamic type of the value implement Shareable?
Impersonated embeds Shareable (impersonate.go); *Context, *Private and
*RpcMeta do not implement it. -/
def Val.isShareable : Val → Bool
  | .generic _ s _ _ _ => s
  | .impersonatedVal _ _ => true
  | _ => false

/-- Does the dynamic type implement ShareableAcrossImpersonation?
None of the named framework values here does (Impersonated embeds only
Shareable). -/
def Val.isShareableAcrossImpersonation : Val → Bool
  | .generic _ _ s _ _ => s
  | _ => false

/-- Finalizeable capability: the result of Finalize for values that
implement it, none for values that do not. -/
def Val.finSpec : Val → Option (Option GoErr)
  | .generic _ _ _ true fe => some fe
  | _ => none

/-- Observation tag used to record in which order Finalize was invoked. -/
def Val.finId : Val → Nat
  | .generic i _ _ _ _ => i
  | _ => 0

/-- A slot of the Context value list (Go: valueItem). `val = none` is the
nil value of a slot that is still being constructed. -/
structure Slot where
  rt : TypeId
  val : Option Val
  valid : Bool

/-- The per-call Context. `selfTag` models the pointer identity of the
*Context, `parentTag` the identity of its parent context.Context, and
`factoryTag` / `methodHandlerTag` the identity of the referenced Factory
and MethodHandler. -/
structure Ctx where
  selfTag : Nat
  parentTag : Nat
  factoryTag : Nat
  methodHandlerTag : Nat
  values : List Slot
  finalized : Bool

/-- The slot NewContext installs for the Context itself. -/
def ctxSelfSlot : Slot := ⟨.context, some .ctxSelf, true⟩

/-- Mirrors NewContext: fresh Context that stores itself under TypeContext
as its first slot (ctx.StoreValue(TypeContext, ctx) on an empty list). -/
def newContext (parentTag facTag mhTag selfTag : Nat) : Ctx :=
  { selfTag := selfTag
    parentTag := parentTag
    factoryTag := facTag
    methodHandlerTag := mhTag
    values := [ctxSelfSlot]
    finalized := false }

/-- Mirrors Context.Fork: NewContext(c, c.factory, c.methodHandler); the
fresh pointer is `tag`. -/
def Ctx.fork (c : Ctx) (tag : Nat) : Ctx :=
  newContext c.selfTag c.factoryTag c.methodHandlerTag tag

/-- Mirrors Context.New: NewContext(ctx, c.factory, c.methodHandler) with an
unrelated parent. -/
def Ctx.newWithParent (c : Ctx) (otherParent : Nat) (tag : Nat) : Ctx :=
  newContext otherParent c.factoryTag c.methodHandlerTag tag

/-- The forked context Context.Clone builds: c.Fork() whose slot list is
then extended with every valid slot of the source (the loop appends the
source's valueItems directly, skipping invalid ones). -/
def Ctx.cloneForked (c : Ctx) (tag : Nat) : Ctx :=
  let forked := c.fork tag
  { forked with values := forked.values ++ c.values.filter (·.valid) }

/-- Mirrors Context.Clone exactly as written: it builds the forked context
and then returns `c` — the receiver, not the fork. -/
def Ctx.clone (c : Ctx) (tag : Nat) : Ctx :=
  let _forked := c.cloneForked tag
  c

/-- Mirrors a Go panic value as it travels up to the nearest recover. -/
inductive Panic : Type where
  | alreadyFinalized
  | badKind (t : TypeId)
  | recursionLoop (inst : TypeId) (chain : List TypeId)
  | alreadyStored (t : TypeId)
  | unknownProvider (t : TypeId)
  | rpcPanic (e : RpcErr)
  | strPanic (s : String)

/-- Mirrors Context.StoreValue: panics when a slot with the same type
identity exists (valid or not), otherwise appends a valid slot at the
tail. -/
def Ctx.storeValue (c : Ctx) (t : TypeId) (v : Val) : Except Panic Ctx :=
  if c.values.any (fun s => s.rt == t) then
    .error (.alreadyStored t)
  else
    .ok { c with values := c.values ++ [⟨t, some v, true⟩] }

/-- Mirrors Context.Invalidate: drop every slot whose type identity is in
the list, keeping the order of the remaining slots. -/
def Ctx.invalidate (c : Ctx) (ts : List TypeId) : Ctx :=
  { c with values := c.values.filter (fun s => !(ts.contains s.rt)) }

/-- Mirrors Context.GetValue: error when finalized; otherwise the first
valid slot with the given type, without constructing anything. -/
def Ctx.getValue (c : Ctx) (t : TypeId) : Except String Val :=
  if c.finalized then .error "context is already finalized"
  else
    match c.values.find? (fun s => s.rt == t && s.valid) with
    | some s =>
      match s.val with
      | some v => .ok v
      | none => .error "instance not found"
    | none => .error "instance not found"

/-- Mirrors the type list built by Context.debugRecursionLoop: it walks the
slot list and stops (break) at the first slot whose valid flag is false, so
it collects exactly the types of the valid prefix. The stack trace the
source appends to the message is runtime state outside this model. -/
def Ctx.validChain (c : Ctx) : List TypeId :=
  (c.values.takeWhile (·.valid)).map (·.rt)

/-- A provider registered in the Factory: the types its body requires from
the context, in order, and then its outcome (a value, or a panic such as
NewPrivate's panic(ErrUnauthorized)). -/
structure ProviderSpec where
  deps : List TypeId
  outcome : Except Panic Val

/-- The Factory provider table (Factory.providers keyed by reflect.Type). -/
def Factory : Type := TypeId → Option ProviderSpec

/-- Sets the value of the in-progress slot for `t` and flips valid to true
(Go: v.val = ...; v.valid = true on the appended valueItem). -/
def Ctx.setSlotVal (c : Ctx) (t : TypeId) (v : Val) : Ctx :=
  { c with values := c.values.map (fun s => if s.rt == t then { s with val := some v, valid := true } else s) }

/-- Result of Context.Require: the returned value or propagated panic, the
context state afterwards, and the list of types for which Factory.Provide
was invoked, in invocation order. -/
structure ReqOut where
  res : Except Panic Val
  ctx : Ctx
  provided : List TypeId

/-- Mirrors Context.Require together with Factory.Provide.

Steps of the source: fail when finalized; fail when the type kind is not
ptr-to-struct or interface; scan the slot list — a valid hit returns its
value, an invalid hit panics with the recursion-loop diagnostic; otherwise
append an invalid slot, call Factory.Provide (panics for unknown types;
otherwise runs the provider, whose body requires its own dependencies via
ctx.Require), then set the value and flip valid.

`fuel` bounds the provider nesting depth (the source recurses through the
call stack); every theorem instantiates it above the depth it needs. -/
def require (f : Factory) : Nat → Ctx → TypeId → ReqOut
  | 0, c, _ => ⟨.error (.strPanic "fuel exhausted"), c, []⟩
  | fuel+1, c, t =>
    if c.finalized then ⟨.error .alreadyFinalized, c, []⟩
    else if !t.kindOk then ⟨.error (.badKind t), c, []⟩
    else
      match c.values.find? (fun s => s.rt == t) with
      | some s =>
        if s.valid then
          match s.val with
          | some v => ⟨.ok v, c, []⟩
          | none => ⟨.error (.strPanic "nil slot value"), c, []⟩
        else ⟨.error (.recursionLoop t c.validChain), c, []⟩
      | none =>
        let c1 : Ctx := { c with values := c.values ++ [⟨t, none, false⟩] }
        match f t with
        | none => ⟨.error (.unknownProvider t), c1, [t]⟩
        | some spec =>
          let dres := spec.deps.foldl
            (fun (acc : Except Panic Unit × Ctx × List TypeId) d =>
              match acc with
              | (.error p, c2, log) => (.error p, c2, log)
              | (.ok _, c2, log) =>
                let r := require f fuel c2 d
                match r.res with
                | .error p => (.error p, r.ctx, log ++ r.provided)
                | .ok _ => (.ok (), r.ctx, log ++ r.provided))
            ((.ok ()), c1, [])
          match dres with
          | (.error p, c2, log) => ⟨.error p, c2, t :: log⟩
          | (.ok _, c2, log) =>
            match spec.outcome with
            | .error p => ⟨.error p, c2, t :: log⟩
            | .ok v => ⟨.ok v, c2.setSlotVal t v, t :: log⟩

/-- Result of Context.Finalize: the context afterwards, the returned error,
the finId tags of the values whose Finalize ran (in invocation order), and
the error list collected by the loop (inbound error first). -/
structure FinalizeOut where
  ctx : Ctx
  ret : Option GoErr
  ranIds : List Nat
  collected : List GoErr

/-- The finalization loop of Context.Finalize, processing the REVERSED slot
list front to back (the source iterates indices last to first): every value
that implements Finalizeable is invoked; a non-nil returned error is
appended to the list. -/
def runFinalizers : List Slot → List GoErr → List GoErr × List Nat
  | [], errs => (errs, [])
  | s :: rest, errs =>
    match s.val with
    | some v =>
      match v.finSpec with
      | some fe =>
        let errs1 := match fe with
          | some e => errs ++ [e]
          | none => errs
        let out := runFinalizers rest errs1
        (out.1, v.finId :: out.2)
      | none => runFinalizers rest errs
    | none => runFinalizers rest errs

/-- The collapse step at the end of Context.Finalize: empty error list →
nil; a single element equal (Go ==) to the inbound error → the inbound
error; otherwise the source remodels the collected errors into a []*Error —
which it then drops — and returns ErrInternal with the fixed debug text and
an EMPTY details list, exactly as written (`Details: []*Error{}`). -/
def collapseErrors (enc : String → String) (err : Option GoErr) : List GoErr → Option GoErr
  | [] => none
  | e0 :: restErrs =>
    if restErrs.isEmpty && (match err with
        | some e => GoErr.beq e0 e
        | none => false) then
      err
    else
      let _remodeled : List RpcErr := (e0 :: restErrs).map (fun ge =>
        match ge with
        | .rpcErr e => e
        | .plain s => errInternal.cloneWithData ([], [], enc s))
      some (.rpcErr (errInternal.cloneWithData ([], [], enc "context: finalization failed")))

/-- Mirrors Context.Finalize. Already finalized: return the inbound error
unchanged and run nothing. Otherwise: mark finalized, run the finalizers in
reverse slot order collecting their errors after the inbound one, clear the
slot list, and collapse the collected list. `enc` is
methodHandler.errorEncoder.Encode. -/
def Ctx.finalize (enc : String → String) (c : Ctx) (err : Option GoErr) : FinalizeOut :=
  if c.finalized then ⟨c, err, [], []⟩
  else
    let inbound : List GoErr := match err with
      | some e => [e]
      | none => []
    let out := runFinalizers c.values.reverse inbound
    ⟨{ c with finalized := true, values := [] }, collapseErrors enc err out.1, out.2, out.1⟩

/-- Selector for the copy loop of MethodHandler.CallMethod: a valid slot
whose value implements Shareable yields its (type, value) pair. -/
def selShare (s : Slot) : Option (TypeId × Val) :=
  s.val.bind (fun v => if s.valid && v.isShareable then some (s.rt, v) else none)

/-- Selector for the copy loop of Impersonator.Impersonate:
ShareableAcrossImpersonation instead of Shareable. -/
def selShareImp (s : Slot) : Option (TypeId × Val) :=
  s.val.bind (fun v =>
    if s.valid && v.isShareableAcrossImpersonation then some (s.rt, v) else none)

/-- The (type, value) pairs MethodHandler.CallMethod copies into the forked
context: the valid slots of the caller whose value implements Shareable, in
slot order. -/
def validSharePairs (c : Ctx) : List (TypeId × Val) :=
  c.values.filterMap selShare

/-- The pairs Impersonator.Impersonate copies: the valid slots whose value
implements ShareableAcrossImpersonation, in slot order. -/
def validShareImpPairs (c : Ctx) : List (TypeId × Val) :=
  c.values.filterMap selShareImp

/-- The slot StoreValue appends for a copied pair. -/
def pairSlot (p : TypeId × Val) : Slot := ⟨p.1, some p.2, true⟩

/-- Sequential StoreValue of a list of pairs (the copy loops of CallMethod
and Impersonate), propagating the first panic. -/
def storeAll (c : Ctx) : List (TypeId × Val) → Except Panic Ctx
  | [] => .ok c
  | (t, v) :: rest =>
    match c.storeValue t v with
    | .error p => .error p
    | .ok c1 => storeAll c1 rest

/-- Mirrors the context-preparation phase of MethodHandler.CallMethod
(method.handler.go): fork the caller, StoreValue every valid Shareable slot
of the caller, then StoreValue a fresh RpcMeta with Source internal. The
caller context is only read. -/
def callMethodFork (c : Ctx) (tag : Nat) (method : String) (hm : RpcHttpMethod) : Except Panic Ctx :=
  match storeAll (c.fork tag) (validSharePairs c) with
  | .error p => .error p
  | .ok c1 => c1.storeValue .rpcMeta (.rpcMetaVal method hm .internal)

/-- The loop body of Impersonator.Impersonate over the caller's slots:
skip invalid slots; StoreValue slots whose value implements
ShareableAcrossImpersonation; remember the value of the TypeImpersonated
slot (the source type-asserts v.val.(*Impersonated), which panics when the
slot holds anything else). -/
def impLoop (fk : Ctx) (acc : Option (String × List String)) :
    List Slot → Except Panic (Ctx × Option (String × List String))
  | [] => .ok (fk, acc)
  | s :: rest =>
    if !s.valid then impLoop fk acc rest
    else
      match (match s.val with
             | some v =>
               if v.isShareableAcrossImpersonation then fk.storeValue s.rt v else .ok fk
             | none => .ok fk : Except Panic Ctx) with
      | .error p => .error p
      | .ok fk1 =>
        if s.rt = TypeId.impersonated then
          match s.val with
          | some (.impersonatedVal u us) => impLoop fk1 (some (u, us)) rest
          | _ => .error (.strPanic "interface conversion to *Impersonated failed")
        else impLoop fk1 acc rest

/-- Mirrors Impersonator.Impersonate (impersonate.go): fork the outer
context, copy only the ShareableAcrossImpersonation slots, then StoreValue
a new Impersonated built by newImpersonated — accountUuid is the target and
accountUuids is any existing trace with the target appended. The fn body is
then run with the new context; only the context construction is modeled
here. -/
def impersonate (c : Ctx) (tag : Nat) (accountUuid : String) : Except Panic Ctx :=
  match impLoop (c.fork tag) none c.values with
  | .error p => .error p
  | .ok (fk, existing) =>
    let priorChain : List String := match existing with
      | some (_, us) => us
      | none => []
    fk.storeValue .impersonated (.impersonatedVal accountUuid (priorChain ++ [accountUuid]))

/-- Constructor classifiers used by the well-formedness predicate. -/
def Val.isCtxSelf : Val → Bool
  | .ctxSelf => true
  | _ => false

def Val.isImpersonatedVal : Val → Bool
  | .impersonatedVal _ _ => true
  | _ => false

def Val.isRpcMetaVal : Val → Bool
  | .rpcMetaVal _ _ _ => true
  | _ => false

/-- The existing impersonation the loop of Impersonator.Impersonate ends up
remembering: the last valid TypeImpersonated slot, in slot order. -/
def lastImpersonated : List Slot → Option (String × List String) → Option (String × List String)
  | [], acc => acc
  | s :: rest, acc =>
    if s.valid && decide (s.rt = TypeId.impersonated) then
      match s.val with
      | some (.impersonatedVal u us) => lastImpersonated rest (some (u, us))
      | _ => lastImpersonated rest acc
    else lastImpersonated rest acc

/-- The accountUuids trace of the caller's current impersonation, empty when
none exists. -/
def impPriorChain (c : Ctx) : List String :=
  match lastImpersonated c.values none with
  | some (_, us) => us
  | none => []

/-- Well-formedness of a context state, maintained by the real operation
sequences: slot type identities are pairwise distinct, and the valid slots
stored under the framework type identities TypeContext / TypeRpcMeta /
TypeImpersonated hold values of the corresponding kind. -/
def Ctx.wf (c : Ctx) : Prop :=
  (c.values.map (·.rt)).Nodup
  ∧ (∀ s ∈ c.values, s.valid = true → s.rt = TypeId.context →
      s.val.map Val.isCtxSelf = some true)
  ∧ (∀ s ∈ c.values, s.valid = true → s.rt = TypeId.rpcMeta →
      s.val.map Val.isRpcMetaVal = some true)
  ∧ (∀ s ∈ c.values, s.valid = true → s.rt = TypeId.impersonated →
      s.val.map Val.isImpersonatedVal = some true)

/-- Mirrors getRecoverError of method.handler.go: a recovered panic value
that is an error stays an error (in particular a *jonson.Error stays
itself); a string becomes errors.New(s); the remaining panics of the model
carry the message of the error the source panics with. -/
def panicToErr : Panic → GoErr
  | .rpcPanic e => .rpcErr e
  | .strPanic s => .plain s
  | .alreadyFinalized => .plain "context is already finalized"
  | .badKind _ => .plain "inst must either be a ptr or an interface"
  | .recursionLoop _ _ => .plain "recursion loop while resolving"
  | .alreadyStored _ => .plain "value is already stored"
  | .unknownProvider _ => .plain "factory: unknown provider type requested"

/-- A params type P as the decoder sees it: its known JSON field names,
whether it implements AllowUnknownFieldsParams (json.go checks this to skip
DisallowUnknownFields), and — when it implements ValidatedParams — the list
of errors its JonsonValidate collects (none when the marker is absent). -/
structure ParamsType where
  knownFields : List String
  allowsUnknownFields : Bool
  validation : Option (List RpcErr)

/-- Mirrors jsonDecoder.Decode of json.go over the documented behavior of
encoding/json: DisallowUnknownFields is set exactly when the target does
not implement AllowUnknownFieldsParams, and then decoding an object fails
iff it contains a field unknown to the target (well-typed field values are
assumed; other decode failures are out of scope). On failure
RpcRequest.UnmarshalAndValidate wraps the decoder error as ErrInvalidParams
with the encoded decode message as debug and one internal detail carrying
the encoded raw params. -/
def decodeParams (enc : String → String) (P : ParamsType) (fields : List String) (raw : String) :
    Option RpcErr :=
  if (!P.allowsUnknownFields) && fields.any (fun fl => !(P.knownFields.contains fl)) then
    some (errInvalidParams.cloneWithData
      ([],
       [RpcErr.mk errInternal.code "failed to decode params" (some ([], [], enc raw))],
       enc "json: unknown field"))
  else
    none

/-- Mirrors RpcRequest.UnmarshalAndValidate of rpc.go: decode the params
(strict unless the type allows unknown fields), then — when the type
implements ValidatedParams — run Validate, whose collector returns nil when
no error was collected and otherwise ErrInvalidParams whose details list
every collected error. -/
def unmarshalAndValidate (enc : String → String) (P : ParamsType) (fields : List String)
    (raw : String) : Option RpcErr :=
  match decodeParams enc P fields raw with
  | some e => some e
  | none =>
    match P.validation with
    | none => none
    | some errs =>
      if errs.isEmpty then none
      else some (errInvalidParams.cloneWithData ([], errs, ""))

/-- One positional argument of an endpoint: a provider-driven slot or the
params struct position. -/
inductive ArgSpec : Type where
  | provider (t : TypeId)
  | params

/-- An endpoint descriptor as far as dispatch is concerned: the argument
plan, the params type at the params position (if any), and the outcome of
the method body (a result value or nil, or a returned/panicked error). -/
structure EndpointSpec where
  args : List ArgSpec
  paramsType : Option ParamsType
  handler : Except GoErr (Option Val)

/-- Result of MethodHandler.callMethod: the method result or error, the
context afterwards, the provider invocations performed, and whether the
method body was invoked at all. -/
structure DispatchOut where
  res : Except GoErr (Option Val)
  ctx : Ctx
  provided : List TypeId
  bodyRan : Bool

/-- The argument-construction loop of MethodHandler.callMethod: the params
position decodes and validates the request params (any failure is returned
and short-circuits the call); every provider position is resolved with
ctx.Require under a recover that maps the panic through getRecoverError and
short-circuits the call. -/
def dispatchArgs (f : Factory) (fuel : Nat) (enc : String → String) (pt : Option ParamsType)
    (fields : List String) (raw : String) :
    Ctx → List ArgSpec → Except GoErr Unit × Ctx × List TypeId
  | c, [] => (.ok (), c, [])
  | c, .params :: rest =>
    match pt with
    | none => (.error (.plain "no params type registered"), c, [])
    | some P =>
      match unmarshalAndValidate enc P fields raw with
      | some e => (.error (.rpcErr e), c, [])
      | none => dispatchArgs f fuel enc pt fields raw c rest
  | c, .provider t :: rest =>
    let r := require f fuel c t
    match r.res with
    | .error p => (.error (panicToErr p), r.ctx, r.provided)
    | .ok _ =>
      let out := dispatchArgs f fuel enc pt fields raw r.ctx rest
      (out.1, out.2.1, r.provided ++ out.2.2)

/-- Mirrors MethodHandler.callMethod after endpoint lookup: build the
argument vector (short-circuiting on any failure, before the method body
runs), then invoke the method body. -/
def callMethodDispatch (f : Factory) (fuel : Nat) (enc : String → String) (ep : EndpointSpec)
    (fields : List String) (raw : String) (c : Ctx) : DispatchOut :=
  match dispatchArgs f fuel enc ep.paramsType fields raw c ep.args with
  | (.error e, c1, log) => ⟨.error e, c1, log, false⟩
  | (.ok _, c1, log) =>
    match ep.handler with
    | .error e => ⟨.error e, c1, log, true⟩
    | .ok r => ⟨.ok r, c1, log, true⟩

/-- Mirrors MethodHandler.CallMethod end to end: prepare the forked context,
dispatch into it, finalize the forked context folding the dispatch error
through, and return the result together with the caller's context — which
the source only ever reads, so the caller state returned is the input
itself. -/
def callMethodRun (f : Factory) (fuel : Nat) (enc : String → String) (ep : EndpointSpec)
    (c : Ctx) (tag : Nat) (m : String) (hm : RpcHttpMethod) (fields : List String)
    (raw : String) : (Except GoErr (Option Val)) × Ctx :=
  match callMethodFork c tag m hm with
  | .error p => (.error (panicToErr p), c)
  | .ok cc =>
    let d := callMethodDispatch f fuel enc ep fields raw cc
    let fin := d.ctx.finalize enc (match d.res with
      | .error e => some e
      | .ok _ => none)
    (match fin.ret with
     | some e => .error e
     | none => .ok (match d.res with
        | .ok r => r
        | .error _ => none), c)

/-- Mirrors AuthProvider.NewPrivate (auth.go) against an AuthClient whose
successive IsAuthorized results are the given list; the head is consumed by
the single IsAuthorized call the constructor performs. A client error
panics with the formatted message; a nil account id panics with
ErrUnauthorized; otherwise the Private carries the returned account id. -/
def newPrivateRun (responses : List (Except GoErr (Option String))) :
    Except Panic Val × List (Except GoErr (Option String)) :=
  match responses with
  | [] => (.error (.strPanic "auth client: no response"), [])
  | r :: rest =>
    (match r with
     | .error e => .error (.strPanic ("newPrivate: " ++ e.errText))
     | .ok none => .error (.rpcPanic errUnauthorized)
     | .ok (some uuid) => .ok (.privateVal uuid),
     rest)

/-- A factory holding only the AuthProvider's NewPrivate, with the given
single IsAuthorized response. -/
def authFactory (resp : Except GoErr (Option String)) : Factory :=
  fun t =>
    if t = .privateTok then some ⟨[], (newPrivateRun [resp]).1⟩ else none

/-- The response value the per-method HTTP handler receives from
processRpcMessage: an RpcResultResponse (Result possibly nil) or an
RpcErrorResponse. -/
inductive RpcRespModel : Type where
  | resultResp (body : Option String)
  | errorResp (e : RpcErr)

/-- The body the per-method handler writes: the marshaled non-nil result,
"null" (json.Marshal of a nil interface), or the marshaled error object. -/
inductive HttpBody : Type where
  | jsonResult (s : String)
  | jsonNull
  | jsonError (e : RpcErr)

/-- Mirrors the tail of processRpcMessage for a request whose ID is
non-nil, as the per-method handler always sends (ID is the literal -1):
an error that is a *jonson.Error is wrapped as an RpcErrorResponse
verbatim, any other error as ErrInternal with encoded debug; success
yields an RpcResultResponse around the (possibly nil) result. A nil is
returned only for notifications (ID nil), which cannot happen here. -/
def processRpcMessageModel (enc : String → String) (idIsNil : Bool)
    (outcome : Except GoErr (Option String)) : Option RpcRespModel :=
  match outcome with
  | .error (.rpcErr e) => some (.errorResp e)
  | .error (.plain s) => some (.errorResp (errInternal.cloneWithData ([], [], enc s)))
  | .ok r => if idIsNil then none else some (.resultResp r)

/-- Mirrors the response tail of HttpMethodHandler.Handle
(http.handler.go): status starts as 204 No Content, becomes 200 for an
RpcResultResponse and HttpStatusCode(err) for an RpcErrorResponse;
the marshaled data is then written (json.Marshal of a nil result is the
4-byte body "null"). -/
def httpMethodRespond : Option RpcRespModel → Nat × HttpBody
  | some (.resultResp none) => (200, .jsonNull)
  | some (.resultResp (some s)) => (200, .jsonResult s)
  | some (.errorResp e) => (httpStatusCode e, .jsonError e)
  | none => (204, .jsonNull)

/-- The per-method endpoint response for a dispatched call: the ID the
handler passes is the literal -1, never nil. -/
def httpMethodHandle (enc : String → String) (outcome : Except GoErr (Option String)) :
    Nat × HttpBody :=
  httpMethodRespond (processRpcMessageModel enc false outcome)

/-- ASCII range checks, as the regexp character classes [A-Z], [a-z], [0-9]
of kebab-case.go and method.handler.go match them. -/
def isUpperAZ (c : Char) : Bool := 65 ≤ c.toNat && c.toNat ≤ 90

def isLowerAZ (c : Char) : Bool := 97 ≤ c.toNat && c.toNat ≤ 122

def isDigit09 (c : Char) : Bool := 48 ≤ c.toNat && c.toNat ≤ 57

/-- ASCII lowercasing, as strings.ToLower acts on the identifier
characters at hand. -/
def goToLowerChar (c : Char) : Char :=
  if isUpperAZ c then Char.ofNat (c.toNat + 32) else c

/-- Mirrors matchFirstCap.ReplaceAllString(input, "$1-$2") of
kebab-case.go, pattern ([A-Z])([A-Z][a-z]): scanning left to right, each
leftmost non-overlapping three-character match A B c gets a dash inserted
after A, and scanning resumes after the match. -/
def capPass1 : List Char → List Char
  | [] => []
  | [a] => [a]
  | [a, b] => [a, b]
  | a :: b :: c :: rest =>
    if isUpperAZ a && isUpperAZ b && isLowerAZ c then
      a :: '-' :: b :: c :: capPass1 rest
    else
      a :: capPass1 (b :: c :: rest)

/-- Mirrors matchAllCap.ReplaceAllString(output, "$1-$2"), pattern
([a-z0-9])([A-Z]). -/
def capPass2 : List Char → List Char
  | [] => []
  | [a] => [a]
  | a :: b :: rest =>
    if (isLowerAZ a || isDigit09 a) && isUpperAZ b then
      a :: '-' :: b :: capPass2 rest
    else
      a :: capPass2 (b :: rest)

/-- Mirrors ToKebabCase of kebab-case.go: the two regexp passes, replacing
underscores with dashes, then lowercasing. -/
def toKebabCase (l : List Char) : List Char :=
  (((capPass2 (capPass1 l)).map (fun c => if c = '_' then '-' else c)).map goToLowerChar)

/-- The character class of validIdentifierName, regexp ^[A-Za-z0-9-]+$. -/
def isValidIdentChar (c : Char) : Bool :=
  isUpperAZ c || isLowerAZ c || isDigit09 c || c = '-'

/-- Mirrors validIdentifierName.MatchString of method.handler.go. -/
def validIdentifierName (l : List Char) : Bool :=
  !l.isEmpty && l.all isValidIdentChar

/-- A non-empty lowercase-kebab identifier: the identifiers accepted (and
left unchanged) by the combination of the regexp check and the
ToKebabCase fixed-point check of ParseRpcMethod. -/
def isKebabChar (c : Char) : Bool := isLowerAZ c || isDigit09 c || c = '-'

def isKebabIdent (l : List Char) : Bool :=
  !l.isEmpty && l.all isKebabChar

/-- Mirrors strings.TrimPrefix(slug, "/"): removes one leading slash when
present. -/
def dropLeadSlash : List Char → List Char
  | [] => []
  | c :: rest => if c = '/' then rest else c :: rest

/-- Mirrors strings.Split(s, "/"): the substrings between the occurrences
of the one-character separator. -/
def splitSlash : List Char → List (List Char)
  | [] => [[]]
  | c :: rest =>
    if c = '/' then [] :: splitSlash rest
    else
      match splitSlash rest with
      | [] => [[c]]
      | h :: t => (c :: h) :: t

/-- Mirrors strings.Split(s, ".v"): the substrings between the leftmost
non-overlapping occurrences of the two-character separator. -/
def splitDotV : List Char → List (List Char)
  | [] => [[]]
  | [c] => [[c]]
  | c1 :: c2 :: rest =>
    if c1 = '.' && c2 = 'v' then [] :: splitDotV rest
    else
      match splitDotV (c2 :: rest) with
      | [] => [[c1]]
      | h :: t => (c1 :: h) :: t

/-- The decimal digit characters. -/
def digitChar (d : Nat) : Char :=
  if d = 0 then '0'
  else if d = 1 then '1'
  else if d = 2 then '2'
  else if d = 3 then '3'
  else if d = 4 then '4'
  else if d = 5 then '5'
  else if d = 6 then '6'
  else if d = 7 then '7'
  else if d = 8 then '8'
  else if d = 9 then '9'
  else '0'

/-- Decimal digit list of v (most significant first), fueled so it reduces
definitionally; natToDigitsList supplies sufficient fuel. -/
def natDigitsAux : Nat → Nat → List Char
  | 0, _ => []
  | fuel+1, v =>
    if v = 0 then []
    else natDigitsAux fuel (v / 10) ++ [digitChar (v % 10)]

/-- Mirrors strconv.FormatUint(v, 10). -/
def natToDigitsList (v : Nat) : List Char :=
  if v = 0 then ['0'] else natDigitsAux (v + 1) v

/-- The digit sequence of strconv.ParseUint base 10: non-empty, all
decimal digits, evaluated left to right. -/
def parseDigits (l : List Char) : Option Nat :=
  if l.isEmpty then none
  else if l.all isDigit09 then
    some (l.foldl (fun a c => 10 * a + (c.toNat - 48)) 0)
  else none

/-- Largest int64, the range bound of strconv.ParseInt(s, 10, 64). -/
def maxInt64 : Nat := 2 ^ 63 - 1

/-- Mirrors strconv.ParseInt(s, 10, 64): optional sign, decimal digits,
error when empty, malformed, or out of the int64 range. -/
def parseInt64 (l : List Char) : Option Int :=
  match l with
  | [] => none
  | c :: rest =>
    if c = '+' then
      (parseDigits rest).bind (fun n => if n ≤ maxInt64 then some (n : Int) else none)
    else if c = '-' then
      (parseDigits rest).bind (fun n => if n ≤ 2 ^ 63 then some (-(n : Int)) else none)
    else
      (parseDigits (c :: rest)).bind (fun n => if n ≤ maxInt64 then some (n : Int) else none)

/-- Mirrors GetDefaultMethodName of method.handler.go:
system + "/" + method + ".v" + strconv.FormatUint(version, 10). -/
def getDefaultMethodName (system method : List Char) (version : Nat) : List Char :=
  system ++ '/' :: (method ++ '.' :: 'v' :: natToDigitsList version)

/-- Mirrors ParseRpcMethod of method.handler.go: trim one leading slash,
split on "/" into exactly two parts, split the second on ".v" into exactly
two parts, ParseInt the version and require it positive, then check both
identifiers against the regexp and the ToKebabCase fixed point, in the
order of the source. -/
def parseRpcMethod (slug : List Char) : Except String (List Char × List Char × Nat) :=
  match splitSlash (dropLeadSlash slug) with
  | [system, rest] =>
    match splitDotV rest with
    | [method, verStr] =>
      match parseInt64 verStr with
      | none => .error "version not of type integer"
      | some version =>
        if version ≤ 0 then .error "version lower equal 0"
        else if !validIdentifierName system then .error "system contains invalid characters"
        else if !validIdentifierName method then .error "method contains invalid characters"
        else if toKebabCase system ≠ system then .error "system is not kebab-case"
        else if toKebabCase method ≠ method then .error "method is not kebab-case"
        else .ok (system, method, version.toNat)
    | _ => .error "missing version"
  | _ => .error "wrong format"

/-- The finId tags of the Finalizeable values of a context, in reverse
slot order: the order the finalization loop must follow. -/
def finalizeableIdsRev (c : Ctx) : List Nat :=
  c.values.reverse.filterMap (fun s =>
    match s.val with
    | some v => if (v.finSpec).isSome then some v.finId else none
    | none => none)

/-- Fixture: a Finalizeable value whose Finalize returns the plain error
"boom". -/
def boomVal : Val := .generic 7 false false true (some (.plain "boom"))

/-- Fixture: a fresh context holding one Finalizeable value that fails
during finalization. -/
def boomCtx : Ctx :=
  { newContext 0 0 0 1 with
    values := [ctxSelfSlot, ⟨.other 7, some boomVal, true⟩] }

/-- Fixture: a fresh context holding two Finalizeable values (finId 1 then
finId 2, in insertion order) whose finalizers succeed. -/
def finOrderCtx : Ctx :=
  { newContext 0 0 0 1 with
    values := [ctxSelfSlot,
               ⟨.other 1, some (.generic 1 false false true none), true⟩,
               ⟨.other 2, some (.generic 2 false false true none), true⟩] }

/-- Fixture: a factory with a cyclic provider pair — the provider for
`other 1` (A) requires `other 2` (B), whose provider requires A back. -/
def cycleFactory : Factory := fun t =>
  if t = TypeId.other 1 then some ⟨[TypeId.other 2], .ok (.generic 1 false false false none)⟩
  else if t = TypeId.other 2 then some ⟨[TypeId.other 1], .ok (.generic 2 false false false none)⟩
  else none

/-- Fixture: an endpoint whose single argument is the Private provider slot
and whose body returns a result value. -/
def epPriv : EndpointSpec :=
  ⟨[.provider .privateTok], none, .ok (some (.generic 99 false false false none))⟩

/-- Fixture: a params type with one known field "id", strict (does not
allow unknown fields), without a validator. -/
def strictParams : ParamsType := ⟨["id"], false, none⟩

/-- Fixture: the same params type but implementing AllowUnknownFieldsParams. -/
def lenientParams : ParamsType := ⟨["id"], true, none⟩

/-- Fixture: a caller context holding a Shareable value (other 3), a
ShareableAcrossImpersonation value (other 4), an in-progress (invalid)
slot (other 5), and an existing impersonation of alice. -/
def callerCtx : Ctx :=
  { newContext 0 0 0 1 with
    values := [ctxSelfSlot,
               ⟨.other 3, some (.generic 3 true false false none), true⟩,
               ⟨.other 4, some (.generic 4 false true false none), true⟩,
               ⟨.other 5, none, false⟩,
               ⟨.impersonated, some (.impersonatedVal "alice" ["alice"]), true⟩] }

example : (newContext 0 0 0 1).values = [ctxSelfSlot] := rfl

example : ((newContext 0 0 0 1).storeValue .context .ctxSelf) = .error (.alreadyStored .context) := rfl

example : ((newContext 0 0 0 1).clone 2) = newContext 0 0 0 1 := rfl

/-! ## Helper lemmas -/

mutual

theorem RpcErr.beq_refl : ∀ e : RpcErr, RpcErr.beq e e = true
  | .mk c m none => by simp [RpcErr.beq]
  | .mk c m (some (p, l, g)) => by
      simp [RpcErr.beq]
      exact RpcErr.beqList_refl l

theorem RpcErr.beqList_refl : ∀ l : List RpcErr, RpcErr.beqList l l = true
  | [] => by simp [RpcErr.beqList]
  | a :: as => by
      simp [RpcErr.beqList]
      exact ⟨RpcErr.beq_refl a, RpcErr.beqList_refl as⟩

end

theorem GoErr.beq_self (e : GoErr) : GoErr.beq e e = true := by
  cases e with
  | rpcErr e => simpa [GoErr.beq] using RpcErr.beq_refl e
  | plain s => simp [GoErr.beq]

theorem runFinalizers_snd (l : List Slot) (errs : List GoErr) :
    (runFinalizers l errs).2 = l.filterMap (fun s =>
      match s.val with
      | some v => if (v.finSpec).isSome then some v.finId else none
      | none => none) := by
  induction l generalizing errs with
  | nil => simp [runFinalizers]
  | cons s rest ih =>
    cases hval : s.val with
    | none => simp [runFinalizers, hval, ih]
    | some v =>
      cases hfs : v.finSpec with
      | none => simp [runFinalizers, hval, hfs, ih]
      | some fe => cases fe <;> simp [runFinalizers, hval, hfs, ih]

theorem finalize_collected (enc : String → String) (c : Ctx) (err : Option GoErr)
    (h : c.finalized = false) :
    (c.finalize enc err).collected =
      (runFinalizers c.values.reverse (match err with | some e => [e] | none => [])).1 := by
  unfold Ctx.finalize
  rw [if_neg (by simp [h])]

theorem finalize_ret (enc : String → String) (c : Ctx) (err : Option GoErr)
    (h : c.finalized = false) :
    (c.finalize enc err).ret = collapseErrors enc err ((c.finalize enc err).collected) := by
  unfold Ctx.finalize
  rw [if_neg (by simp [h])]

theorem finalize_ranIds (enc : String → String) (c : Ctx) (err : Option GoErr)
    (h : c.finalized = false) :
    (c.finalize enc err).ranIds =
      (runFinalizers c.values.reverse (match err with | some e => [e] | none => [])).2 := by
  unfold Ctx.finalize
  rw [if_neg (by simp [h])]

theorem finalize_marks (enc : String → String) (c : Ctx) (err : Option GoErr)
    (h : c.finalized = false) :
    (c.finalize enc err).ctx.finalized = true := by
  unfold Ctx.finalize
  rw [if_neg (by simp [h])]

theorem finalize_of_finalized (enc : String → String) (c : Ctx) (err : Option GoErr)
    (h : c.finalized = true) :
    c.finalize enc err = ⟨c, err, [], []⟩ := by
  unfold Ctx.finalize
  rw [if_pos h]

/-! ## Claim theorems -/

/-- C10: every Context created by NewContext (and hence by Fork, New and
Clone) stores itself as its first slot under the Context type identity; on
any context whose head slot is that self slot, Require of TypeContext
returns the stored ctxSelf without invoking the Factory and leaves the
context unchanged, and StoreValue under TypeContext panics because the slot
already exists. -/
theorem newContext_self_slot_require_store
    (par fac mh tag : Nat) (f : Factory) (fuel : Nat) (c : Ctx) (v : Val) :
    (newContext par fac mh tag).values = [ctxSelfSlot]
    ∧ (c.fork tag).values = [ctxSelfSlot]
    ∧ (c.finalized = false → c.values.head? = some ctxSelfSlot →
        require f (fuel + 1) c .context = ⟨.ok .ctxSelf, c, []⟩)
    ∧ (TypeId.context ∈ c.values.map (·.rt) →
        c.storeValue .context v = .error (.alreadyStored .context)) := by
  refine ⟨rfl, rfl, ?_, ?_⟩
  · intro hfin hhead
    obtain ⟨rest, hv⟩ : ∃ rest, c.values = ctxSelfSlot :: rest := by
      cases hval : c.values with
      | nil => rw [hval] at hhead; simp at hhead
      | cons a l =>
        rw [hval] at hhead
        simp at hhead
        exact ⟨l, by rw [hhead]⟩
    simp [require, hfin, TypeId.kindOk, hv, List.find?, ctxSelfSlot]
  · intro hmem
    unfold Ctx.storeValue
    rw [if_pos]
    simp only [List.any_eq_true]
    obtain ⟨s, hs, hrt⟩ := List.mem_map.mp hmem
    exact ⟨s, hs, by simp [hrt]⟩

/-- C10 witness: the fresh context itself. -/
theorem newContext_self_slot_require_store_witness :
    require (fun _ => none) 1 (newContext 0 0 0 1) .context
        = ⟨.ok .ctxSelf, newContext 0 0 0 1, []⟩
    ∧ (newContext 0 0 0 1).storeValue .context .ctxSelf
        = .error (.alreadyStored .context) := by
  have h := newContext_self_slot_require_store 0 0 0 1 (fun _ => none) 0
      (newContext 0 0 0 1) .ctxSelf
  exact ⟨h.2.2.1 rfl rfl, h.2.2.2 (by decide)⟩

/-- C1 (code bug): Context.Clone builds a forked context whose slot list is
pre-populated with exactly the valid slots of the source (invalid slots are
skipped) — but the function then returns the receiver `c` itself, not the
fork, contradicting the repo's own TestClone ("a cloned context is not the
same as the original context"). -/
theorem clone_returns_original (c : Ctx) (tag : Nat) :
    c.clone tag = c
    ∧ (c.cloneForked tag).values = ctxSelfSlot :: c.values.filter (·.valid)
    ∧ (c.cloneForked tag).selfTag = tag
    ∧ (c.cloneForked tag).parentTag = c.selfTag
    ∧ (newContext 0 0 0 1).clone 2 ≠ (newContext 0 0 0 1).cloneForked 2 := by
  refine ⟨rfl, rfl, rfl, rfl, ?_⟩
  intro h
  have := congrArg Ctx.selfTag h
  simp [newContext, Ctx.cloneForked, Ctx.clone, Ctx.fork] at this

/-- C2 (code bug): Finalize collapses its error list as: empty list → nil
result with nothing collected; a single collected element equal to the
inbound error → the inbound error; every other case → ErrInternal whose
data carries the fixed debug text and an EMPTY details list — the remodeled
list of collected errors is computed by the source and then dropped.
Evaluated at boomCtx (one Finalizeable value returning the error "boom",
inbound error nil): the collected list is nonempty but the returned
internal error carries no details. -/
theorem finalize_collapse_empty_details (enc : String → String) (c : Ctx)
    (err : Option GoErr) (e : GoErr) :
    ((boomCtx.finalize id none).ret
        = some (.rpcErr (errInternal.cloneWithData ([], [], "context: finalization failed")))
      ∧ (boomCtx.finalize id none).collected = [.plain "boom"]
      ∧ ((boomCtx.finalize id none).ret.map (fun g =>
            match g with
            | .rpcErr re => re.details
            | .plain _ => none)) = some (some []))
    ∧ (c.finalized = false →
        ((c.finalize enc err).ret = none ∧ (c.finalize enc err).collected = []
        ∨ ((c.finalize enc err).ret = err ∧ ∃ e0, (c.finalize enc err).collected = [e0])
        ∨ (c.finalize enc err).ret
            = some (.rpcErr (errInternal.cloneWithData ([], [], enc "context: finalization failed")))))
    ∧ (c.finalized = false → (c.finalize enc (some e)).collected = [e] →
        (c.finalize enc (some e)).ret = some e) := by
  refine ⟨⟨rfl, rfl, rfl⟩, ?_, ?_⟩
  · intro hfin
    have hret := finalize_ret enc c err hfin
    cases hcol : (c.finalize enc err).collected with
    | nil =>
      left
      rw [hcol] at hret
      exact ⟨hret, rfl⟩
    | cons e0 rest =>
      rw [hcol] at hret
      cases err with
      | none =>
        right; right
        simpa [collapseErrors] using hret
      | some e1 =>
        by_cases hguard : (rest.isEmpty && GoErr.beq e0 e1) = true
        · right; left
          simp only [collapseErrors, hguard, if_true] at hret
          have hrest : rest = [] := by
            have := (Bool.and_eq_true _ _).mp hguard
            simpa [List.isEmpty_iff] using this.1
          exact ⟨hret, e0, by rw [hrest]⟩
        · right; right
          simp only [collapseErrors] at hret
          rw [if_neg hguard] at hret
          exact hret
  · intro hfin hcol
    have hret := finalize_ret enc c (some e) hfin
    rw [hcol] at hret
    simpa [collapseErrors, GoErr.beq_self] using hret

/-- C2 witness: the collapse trichotomy applied at boomCtx. -/
theorem finalize_collapse_empty_details_witness :
    (boomCtx.finalize id none).ret = none ∧ (boomCtx.finalize id none).collected = []
    ∨ ((boomCtx.finalize id none).ret = none ∧ ∃ e0, (boomCtx.finalize id none).collected = [e0])
    ∨ (boomCtx.finalize id none).ret
        = some (.rpcErr (errInternal.cloneWithData ([], [], "context: finalization failed"))) := by
  have h := finalize_collapse_empty_details id boomCtx none (GoErr.plain "boom")
  exact h.2.1 rfl

/-- C5: on one Context, the finalization pass runs exactly once — a second
Finalize call returns its inbound error unchanged and invokes no finalizer
— and the single pass invokes Finalize on each still-present Finalizeable
value in reverse insertion order of the slot list. -/
theorem finalize_once_reverse_order (enc : String → String) (c : Ctx)
    (err err2 : Option GoErr) (h : c.finalized = false) :
    (c.finalize enc err).ranIds = finalizeableIdsRev c
    ∧ (c.finalize enc err).ctx.finalized = true
    ∧ ((c.finalize enc err).ctx.finalize enc err2)
        = ⟨(c.finalize enc err).ctx, err2, [], []⟩ := by
  have h2 := finalize_marks enc c err h
  refine ⟨?_, h2, ?_⟩
  · rw [finalize_ranIds enc c err h, runFinalizers_snd]
    rfl
  · exact finalize_of_finalized enc _ err2 h2

/-- C5 witness: two Finalizeable values inserted in order finId 1, finId 2
are finalized in order 2, 1; re-finalizing is the identity on the inbound
error. -/
theorem finalize_once_reverse_order_witness :
    (finOrderCtx.finalize id none).ranIds = [2, 1]
    ∧ ((finOrderCtx.finalize id none).ctx.finalize id none)
        = ⟨(finOrderCtx.finalize id none).ctx, none, [], []⟩ := by
  have h := finalize_once_reverse_order id finOrderCtx none none rfl
  exact ⟨h.1.trans (by rfl), h.2.2⟩

/-- C4 counterexample: with a provider for A (= other 1) requiring B
(= other 2) and the provider for B requiring A, Require(A) on a fresh
context does panic with the recursion-loop diagnostic — but the chain of
types the diagnostic lists is only the valid prefix [TypeContext]: neither
A nor B, the in-progress types, appears in the listed chain, contrary to
the claim that both appear. -/
theorem require_cycle_chain_counterexample :
    (require cycleFactory 10 (newContext 0 0 0 1) (.other 1)).res
      = .error (.recursionLoop (.other 1) [TypeId.context])
    ∧ (TypeId.other 1) ∉ [TypeId.context]
    ∧ (TypeId.other 2) ∉ [TypeId.context] :=
  ⟨rfl, by decide, by decide⟩

/-- C4 (amended): in the A-requires-B-requires-A cycle, Require(A) fails by
panic with a diagnostic that names A as the type being resolved and lists
the types of the valid prefix of the slot list, stopping at the first
in-progress slot (so the in-progress types A and B themselves are not
listed); the source additionally attaches the current stack trace, which is
runtime state outside this model. Both providers were invoked once, and the
two in-progress slots remain marked invalid. -/
theorem require_cycle_diagnostic (par fac mh tag : Nat) :
    require cycleFactory 10 (newContext par fac mh tag) (.other 1)
      = ⟨.error (.recursionLoop (.other 1) [TypeId.context]),
         { newContext par fac mh tag with
           values := [ctxSelfSlot, ⟨.other 1, none, false⟩, ⟨.other 2, none, false⟩] },
         [TypeId.other 1, TypeId.other 2]⟩ :=
  rfl

/-- C9: constructing the Private token consumes exactly one IsAuthorized
response; a nil id with nil error panics with ErrUnauthorized (code
-32001, HTTP 403 on the per-method endpoint) so that a method declaring a
Private argument fails before its body runs; a non-nil id yields a Private
carrying that account id. -/
theorem private_token_authorization (uuid : String)
    (rest : List (Except GoErr (Option String))) :
    (newPrivateRun (.ok none :: rest)).2 = rest
    ∧ (newPrivateRun (.ok none :: rest)).1 = .error (.rpcPanic errUnauthorized)
    ∧ (newPrivateRun (.ok (some uuid) :: rest)).2 = rest
    ∧ (newPrivateRun (.ok (some uuid) :: rest)).1 = .ok (.privateVal uuid)
    ∧ errUnauthorized.code = -32001
    ∧ httpStatusCode errUnauthorized = 403
    ∧ (callMethodDispatch (authFactory (.ok none)) 10 id epPriv [] "" (newContext 0 0 0 1)).res
        = .error (.rpcErr errUnauthorized)
    ∧ (callMethodDispatch (authFactory (.ok none)) 10 id epPriv [] "" (newContext 0 0 0 1)).bodyRan
        = false
    ∧ (callMethodDispatch (authFactory (.ok none)) 10 id epPriv [] "" (newContext 0 0 0 1)).provided
        = [.privateTok]
    ∧ (require (authFactory (.ok (some uuid))) 10 (newContext 0 0 0 1) .privateTok).res
        = .ok (.privateVal uuid)
    ∧ (httpMethodHandle id (.error (.rpcErr errUnauthorized))).1 = 403 :=
  ⟨rfl, rfl, rfl, rfl, rfl, rfl, rfl, rfl, rfl, rfl, rfl⟩

/-- C8: params decoding is strict by default — a params object with a field
unknown to P fails the call with invalid-params (-32602) before the method
body runs — and extra fields are silently ignored exactly when P implements
the allow-unknown-fields capability. P's validator, when present, is
assumed to pass so that the decode outcome is isolated. -/
theorem params_strict_decoding (P : ParamsType) (fields : List String)
    (enc : String → String) (raw : String)
    (hunknown : fields.any (fun fl => !(P.knownFields.contains fl)) = true)
    (hval : P.validation = none ∨ P.validation = some []) :
    ((unmarshalAndValidate enc P fields raw = none) ↔ P.allowsUnknownFields = true)
    ∧ (P.allowsUnknownFields = false →
        ∃ e, unmarshalAndValidate enc P fields raw = some e ∧ e.code = errInvalidParams.code)
    ∧ (P.allowsUnknownFields = false →
        ∀ (f : Factory) (fuel : Nat) (c : Ctx) (hr : Except GoErr (Option Val)),
          (callMethodDispatch f fuel enc ⟨[.params], some P, hr⟩ fields raw c).bodyRan = false) := by
  cases hallow : P.allowsUnknownFields with
  | true =>
    have hd : decodeParams enc P fields raw = none := by
      unfold decodeParams
      rw [hallow]
      simp
    refine ⟨?_, by simp [hallow], by simp [hallow]⟩
    unfold unmarshalAndValidate
    rw [hd]
    rcases hval with hv | hv <;> simp [hv]
  | false =>
    have hd : decodeParams enc P fields raw
        = some (errInvalidParams.cloneWithData
            ([],
             [RpcErr.mk errInternal.code "failed to decode params" (some ([], [], enc raw))],
             enc "json: unknown field")) := by
      unfold decodeParams
      rw [hallow, if_pos]
      simp only [Bool.not_false, Bool.true_and]
      exact hunknown
    have hu : unmarshalAndValidate enc P fields raw
        = some (errInvalidParams.cloneWithData
            ([],
             [RpcErr.mk errInternal.code "failed to decode params" (some ([], [], enc raw))],
             enc "json: unknown field")) := by
      unfold unmarshalAndValidate
      rw [hd]
    refine ⟨by simp [hu], ?_, ?_⟩
    · intro _
      exact ⟨_, hu, rfl⟩
    · intro _ f fuel c hr
      simp [callMethodDispatch, dispatchArgs, hu]

/-- C8 witness: one unknown field "extra" against the strict and the
lenient params fixtures. -/
theorem params_strict_decoding_witness :
    ((unmarshalAndValidate id strictParams ["id", "extra"] "raw" = none) ↔ (false = true))
    ∧ ((unmarshalAndValidate id lenientParams ["id", "extra"] "raw" = none) ↔ (true = true)) := by
  have h1 := params_strict_decoding strictParams ["id", "extra"] id "raw" rfl (Or.inl rfl)
  have h2 := params_strict_decoding lenientParams ["id", "extra"] id "raw" rfl (Or.inl rfl)
  exact ⟨h1.1, h2.1⟩

/-- C6 counterexample: on the per-method HTTP handler, a successful call
whose result is nil is answered with status 200 and the body "null" — not
with 204, as claimed: the dispatch never returns a nil response there (the
request ID is the literal -1), so the 204 No Content default is
unreachable. -/
theorem http_null_result_counterexample :
    httpMethodHandle id (.ok none) = (200, .jsonNull) ∧ (200 : Nat) ≠ 204 :=
  ⟨rfl, by decide⟩

/-- C6 (amended): the per-method HTTP handler maps an Error result to:
method-not-allowed (-32000) → 405; parse (-32700) and invalid-params
(-32602) → 400; unauthorized (-32001) and unauthenticated (-32002) → 403
and never 401; method-not-found (-32601) → 404; too-many-requests (-32003)
→ 429; every other code → 500. A successful call returning a non-null
result yields 200 with the marshaled JSON body, and a successful call
returning null yields 200 with the body "null" (not 204). -/
theorem http_status_mapping (enc : String → String) (e : RpcErr) (s : String) :
    httpMethodHandle enc (.ok (some s)) = (200, .jsonResult s)
    ∧ httpMethodHandle enc (.ok none) = (200, .jsonNull)
    ∧ httpMethodHandle enc (.error (.rpcErr e)) = (httpStatusCode e, .jsonError e)
    ∧ (e.code = -32000 → httpStatusCode e = 405)
    ∧ ((e.code = -32700 ∨ e.code = -32602) → httpStatusCode e = 400)
    ∧ ((e.code = -32001 ∨ e.code = -32002) → httpStatusCode e = 403)
    ∧ (e.code = -32601 → httpStatusCode e = 404)
    ∧ (e.code = -32003 → httpStatusCode e = 429)
    ∧ (e.code ∉ ([-32000, -32700, -32602, -32001, -32002, -32601, -32003] : List Int) →
        httpStatusCode e = 500)
    ∧ httpStatusCode e ≠ 401 := by
  cases e with
  | mk ec msg dat =>
    simp only [RpcErr.code]
    refine ⟨rfl, rfl, rfl, ?_, ?_, ?_, ?_, ?_, ?_, ?_⟩
    · intro hc; subst hc; rfl
    · rintro (hc | hc) <;> subst hc <;> rfl
    · rintro (hc | hc) <;> subst hc <;> rfl
    · intro hc; subst hc; rfl
    · intro hc; subst hc; rfl
    · intro hc
      simp only [List.mem_cons, List.not_mem_nil, or_false, not_or] at hc
      obtain ⟨h1, h2, h3, h4, h5, h6, h7⟩ := hc
      simp [httpStatusCode, errServerMethodNotAllowed, errInvalidParams, errParse,
        errUnauthorized, errUnauthenticated, errMethodNotFound, errTooManyRequests,
        RpcErr.code, h1, h2, h3, h4, h5, h6, h7]
    · unfold httpStatusCode
      split_ifs <;> decide

/-- C6 witness: the error mapping applied at unauthorized (403) and at an
application error code (500), and the null-result response. -/
theorem http_status_mapping_witness :
    httpStatusCode errUnauthorized = 403
    ∧ httpStatusCode (RpcErr.mk 42 "app error" none) = 500
    ∧ httpMethodHandle id (.ok none) = (200, .jsonNull) := by
  have h1 := http_status_mapping id errUnauthorized "x"
  have h2 := http_status_mapping id (RpcErr.mk 42 "app error" none) "x"
  exact ⟨h1.2.2.2.2.2.1 (Or.inl rfl), h2.2.2.2.2.2.2.2.2.1 (by decide), h2.2.1⟩

theorem storeAll_ok (pairs : List (TypeId × Val)) (c : Ctx)
    (hnd : (pairs.map Prod.fst).Nodup)
    (hfresh : ∀ t ∈ pairs.map Prod.fst, t ∉ c.values.map (·.rt)) :
    storeAll c pairs = .ok { c with values := c.values ++ pairs.map pairSlot } := by
  induction pairs generalizing c with
  | nil => simp [storeAll]
  | cons p rest ih =>
    obtain ⟨t, v⟩ := p
    rw [List.map_cons] at hnd hfresh
    obtain ⟨hhd, htl⟩ := List.nodup_cons.mp hnd
    have ht : t ∉ c.values.map (·.rt) := hfresh t (by simp)
    have hstore : c.storeValue t v = .ok { c with values := c.values ++ [⟨t, some v, true⟩] } := by
      unfold Ctx.storeValue
      rw [if_neg]
      intro hany
      rw [List.any_eq_true] at hany
      obtain ⟨s, hs, heq⟩ := hany
      exact ht (List.mem_map.mpr ⟨s, hs, by simpa using heq⟩)
    have hfresh2 : ∀ u ∈ rest.map Prod.fst,
        u ∉ ({ c with values := c.values ++ [⟨t, some v, true⟩] } : Ctx).values.map (·.rt) := by
      intro u hu
      simp only [List.map_append, List.mem_append]
      rintro (hc | hc)
      · exact hfresh u (List.mem_cons_of_mem _ hu) hc
      · simp at hc
        subst hc
        exact hhd hu
    simp only [storeAll, hstore]
    rw [ih _ htl hfresh2]
    simp [pairSlot]

theorem sel_fst_sublist (sel : Slot → Option (TypeId × Val))
    (hsel : ∀ s p, sel s = some p → p.1 = s.rt) (l : List Slot) :
    ((l.filterMap sel).map Prod.fst).Sublist (l.map (·.rt)) := by
  induction l with
  | nil => simp
  | cons s rest ih =>
    cases hs : sel s with
    | none =>
      simp only [List.filterMap_cons, hs, List.map_cons]
      exact ih.cons _
    | some p =>
      simp only [List.filterMap_cons, hs, List.map_cons]
      rw [hsel s p hs]
      exact ih.cons₂ _

theorem selShare_rt (s : Slot) (p : TypeId × Val) (h : selShare s = some p) : p.1 = s.rt := by
  unfold selShare at h
  cases hv : s.val with
  | none => rw [hv] at h; simp at h
  | some v =>
    rw [hv] at h
    simp only [Option.some_bind] at h
    by_cases hc : (s.valid && v.isShareable) = true
    · rw [if_pos hc] at h
      cases h
      rfl
    · rw [if_neg hc] at h
      cases h

theorem selShareImp_rt (s : Slot) (p : TypeId × Val) (h : selShareImp s = some p) :
    p.1 = s.rt := by
  unfold selShareImp at h
  cases hv : s.val with
  | none => rw [hv] at h; simp at h
  | some v =>
    rw [hv] at h
    simp only [Option.some_bind] at h
    by_cases hc : (s.valid && v.isShareableAcrossImpersonation) = true
    · rw [if_pos hc] at h
      cases h
      rfl
    · rw [if_neg hc] at h
      cases h

theorem selShare_mem (c : Ctx) (t : TypeId) (hmem : t ∈ (validSharePairs c).map Prod.fst) :
    ∃ s ∈ c.values, ∃ v, s.val = some v ∧ s.valid = true ∧ v.isShareable = true ∧ s.rt = t := by
  obtain ⟨p, hp, hfst⟩ := List.mem_map.mp hmem
  obtain ⟨s, hs, hsel⟩ := List.mem_filterMap.mp hp
  refine ⟨s, hs, ?_⟩
  unfold selShare at hsel
  cases hv : s.val with
  | none => rw [hv] at hsel; simp at hsel
  | some v =>
    rw [hv] at hsel
    simp only [Option.some_bind] at hsel
    by_cases hc : (s.valid && v.isShareable) = true
    · rw [if_pos hc] at hsel
      cases hsel
      obtain ⟨h1, h2⟩ : s.valid = true ∧ v.isShareable = true := by simpa using hc
      exact ⟨v, rfl, h1, h2, hfst⟩
    · rw [if_neg hc] at hsel
      cases hsel

theorem selShareImp_mem (c : Ctx) (t : TypeId)
    (hmem : t ∈ (validShareImpPairs c).map Prod.fst) :
    ∃ s ∈ c.values, ∃ v, s.val = some v ∧ s.valid = true
      ∧ v.isShareableAcrossImpersonation = true ∧ s.rt = t := by
  obtain ⟨p, hp, hfst⟩ := List.mem_map.mp hmem
  obtain ⟨s, hs, hsel⟩ := List.mem_filterMap.mp hp
  refine ⟨s, hs, ?_⟩
  unfold selShareImp at hsel
  cases hv : s.val with
  | none => rw [hv] at hsel; simp at hsel
  | some v =>
    rw [hv] at hsel
    simp only [Option.some_bind] at hsel
    by_cases hc : (s.valid && v.isShareableAcrossImpersonation) = true
    · rw [if_pos hc] at hsel
      cases hsel
      obtain ⟨h1, h2⟩ : s.valid = true ∧ v.isShareableAcrossImpersonation = true := by
        simpa using hc
      exact ⟨v, rfl, h1, h2, hfst⟩
    · rw [if_neg hc] at hsel
      cases hsel

theorem wf_context_not_share (c : Ctx) (hwf : c.wf) :
    TypeId.context ∉ (validSharePairs c).map Prod.fst := by
  intro hmem
  obtain ⟨s, hs, v, hval, hvalid, hshare, hrt⟩ := selShare_mem c _ hmem
  have h1 := hwf.2.1 s hs hvalid hrt
  rw [hval] at h1
  cases v <;> simp_all [Val.isCtxSelf, Val.isShareable]

theorem wf_rpcMeta_not_share (c : Ctx) (hwf : c.wf) :
    TypeId.rpcMeta ∉ (validSharePairs c).map Prod.fst := by
  intro hmem
  obtain ⟨s, hs, v, hval, hvalid, hshare, hrt⟩ := selShare_mem c _ hmem
  have h1 := hwf.2.2.1 s hs hvalid hrt
  rw [hval] at h1
  cases v <;> simp_all [Val.isRpcMetaVal, Val.isShareable]

theorem wf_context_not_shareImp (c : Ctx) (hwf : c.wf) :
    TypeId.context ∉ (validShareImpPairs c).map Prod.fst := by
  intro hmem
  obtain ⟨s, hs, v, hval, hvalid, hshare, hrt⟩ := selShareImp_mem c _ hmem
  have h1 := hwf.2.1 s hs hvalid hrt
  rw [hval] at h1
  cases v <;> simp_all [Val.isCtxSelf, Val.isShareableAcrossImpersonation]

theorem wf_imp_not_shareImp (c : Ctx) (hwf : c.wf) :
    TypeId.impersonated ∉ (validShareImpPairs c).map Prod.fst := by
  intro hmem
  obtain ⟨s, hs, v, hval, hvalid, hshare, hrt⟩ := selShareImp_mem c _ hmem
  have h1 := hwf.2.2.2 s hs hvalid hrt
  rw [hval] at h1
  cases v <;> simp_all [Val.isImpersonatedVal, Val.isShareableAcrossImpersonation]

theorem callMethodFork_ok (c : Ctx) (tag : Nat) (m : String) (hm : RpcHttpMethod)
    (hwf : c.wf) :
    callMethodFork c tag m hm
      = .ok { c.fork tag with
              values := ctxSelfSlot :: (validSharePairs c).map pairSlot
                ++ [⟨.rpcMeta, some (.rpcMetaVal m hm .internal), true⟩] } := by
  have hnd : ((validSharePairs c).map Prod.fst).Nodup :=
    ((sel_fst_sublist selShare selShare_rt c.values).nodup hwf.1)
  have hctx : TypeId.context ∉ (validSharePairs c).map Prod.fst := wf_context_not_share c hwf
  have hmeta : TypeId.rpcMeta ∉ (validSharePairs c).map Prod.fst := wf_rpcMeta_not_share c hwf
  have hfresh : ∀ t ∈ (validSharePairs c).map Prod.fst,
      t ∉ (c.fork tag).values.map (·.rt) := by
    intro t hmem
    simp only [Ctx.fork, newContext, List.map_cons, List.map_nil, ctxSelfSlot]
    intro hc
    simp at hc
    rw [hc] at hmem
    exact hctx hmem
  have h1 : storeAll (c.fork tag) (validSharePairs c)
      = .ok { c.fork tag with
              values := (c.fork tag).values ++ (validSharePairs c).map pairSlot } :=
    storeAll_ok _ _ hnd hfresh
  have hnometa : ¬ ((({ c.fork tag with
        values := (c.fork tag).values ++ (validSharePairs c).map pairSlot } : Ctx).values.any
          (fun s => s.rt == TypeId.rpcMeta)) = true) := by
    intro hany
    rw [List.any_eq_true] at hany
    obtain ⟨s, hs, heq⟩ := hany
    have heq2 : s.rt = TypeId.rpcMeta := by simpa using heq
    have hs2 : s = ctxSelfSlot ∨ s ∈ (validSharePairs c).map pairSlot := by
      simpa [Ctx.fork, newContext] using hs
    rcases hs2 with hs1 | hs1
    · rw [hs1] at heq2
      simp [ctxSelfSlot] at heq2
    · obtain ⟨p, hp, hps⟩ := List.mem_map.mp hs1
      rw [← hps] at heq2
      simp only [pairSlot] at heq2
      exact hmeta (List.mem_map.mpr ⟨p, hp, heq2⟩)
  simp only [callMethodFork, h1, Ctx.storeValue, hnometa, if_false]
  simp [Ctx.fork, newContext]

theorem impLoop_ok (l : List Slot) (fk : Ctx) (acc : Option (String × List String))
    (hnd : ((l.filterMap selShareImp).map Prod.fst).Nodup)
    (hfresh : ∀ t ∈ (l.filterMap selShareImp).map Prod.fst, t ∉ fk.values.map (·.rt))
    (hwf : ∀ s ∈ l, s.valid = true → s.rt = TypeId.impersonated →
      s.val.map Val.isImpersonatedVal = some true) :
    impLoop fk acc l
      = .ok ({ fk with values := fk.values ++ (l.filterMap selShareImp).map pairSlot },
             lastImpersonated l acc) := by
  induction l generalizing fk acc with
  | nil => simp [impLoop, lastImpersonated]
  | cons s rest ih =>
    have hwfs := hwf s (by simp)
    have hwfrest : ∀ s2 ∈ rest, s2.valid = true → s2.rt = TypeId.impersonated →
        s2.val.map Val.isImpersonatedVal = some true := by
      intro s2 hs2
      exact hwf s2 (by simp [hs2])
    cases hvalid : s.valid with
    | false =>
      have hsel : selShareImp s = none := by
        cases hv2 : s.val <;> simp [selShareImp, hv2, hvalid]
      have hstep : impLoop fk acc (s :: rest) = impLoop fk acc rest := by
        simp [impLoop, hvalid]
      have hlast : lastImpersonated (s :: rest) acc = lastImpersonated rest acc := by
        simp [lastImpersonated, hvalid]
      rw [hstep, hlast]
      simp only [List.filterMap_cons, hsel] at hnd hfresh ⊢
      exact ih fk acc hnd hfresh hwfrest
    | true =>
      cases hval : s.val with
      | none =>
        have hrtne : s.rt ≠ TypeId.impersonated := by
          intro hrt
          have := hwfs hvalid hrt
          rw [hval] at this
          simp at this
        have hsel : selShareImp s = none := by
          simp [selShareImp, hval]
        have hstep : impLoop fk acc (s :: rest) = impLoop fk acc rest := by
          simp [impLoop, hval, hvalid, hrtne]
        have hlast : lastImpersonated (s :: rest) acc = lastImpersonated rest acc := by
          simp [lastImpersonated, hrtne]
        rw [hstep, hlast]
        simp only [List.filterMap_cons, hsel] at hnd hfresh ⊢
        exact ih fk acc hnd hfresh hwfrest
      | some v =>
        cases hsai : v.isShareableAcrossImpersonation with
        | true =>
          have hrtne : s.rt ≠ TypeId.impersonated := by
            intro hrt
            have h3 := hwfs hvalid hrt
            rw [hval] at h3
            have h4 : v.isImpersonatedVal = true := by simpa using h3
            cases v <;> simp [Val.isImpersonatedVal] at h4 <;>
              simp [Val.isShareableAcrossImpersonation] at hsai
          have hsel : selShareImp s = some (s.rt, v) := by
            simp [selShareImp, hval, hvalid, hsai]
          have hsfresh : s.rt ∉ fk.values.map (·.rt) := by
            apply hfresh
            rw [List.filterMap_cons, hsel]
            simp
          have hstore : fk.storeValue s.rt v
              = .ok { fk with values := fk.values ++ [⟨s.rt, some v, true⟩] } := by
            unfold Ctx.storeValue
            rw [if_neg]
            intro hany
            rw [List.any_eq_true] at hany
            obtain ⟨s2, hs2, heq⟩ := hany
            exact hsfresh (List.mem_map.mpr ⟨s2, hs2, by simpa using heq⟩)
          have hstep : impLoop fk acc (s :: rest)
              = impLoop { fk with values := fk.values ++ [⟨s.rt, some v, true⟩] } acc rest := by
            simp [impLoop, hval, hvalid, hsai, hrtne, hstore]
          have hlast : lastImpersonated (s :: rest) acc = lastImpersonated rest acc := by
            simp [lastImpersonated, hrtne]
          rw [hstep, hlast]
          simp only [List.filterMap_cons, hsel, List.map_cons] at hnd hfresh ⊢
          obtain ⟨hhd, htl⟩ := List.nodup_cons.mp hnd
          have hfresh2 : ∀ t ∈ (rest.filterMap selShareImp).map Prod.fst,
              t ∉ ({ fk with values := fk.values ++ [⟨s.rt, some v, true⟩] } : Ctx).values.map
                (·.rt) := by
            intro t hmem
            simp only [List.map_append, List.mem_append]
            rintro (hc | hc)
            · exact hfresh t (List.mem_cons_of_mem _ hmem) hc
            · simp at hc
              rw [hc] at hmem
              exact hhd hmem
          rw [ih _ acc htl hfresh2 hwfrest]
          simp [pairSlot]
        | false =>
          have hsel : selShareImp s = none := by
            simp [selShareImp, hval, hsai]
          by_cases hrt : s.rt = TypeId.impersonated
          · have hwfv := hwfs hvalid hrt
            rw [hval] at hwfv
            obtain ⟨u, us, hv⟩ : ∃ u us, v = Val.impersonatedVal u us := by
              cases v <;> simp [Val.isImpersonatedVal] at hwfv
              exact ⟨_, _, rfl⟩
            subst hv
            have hstep : impLoop fk acc (s :: rest) = impLoop fk (some (u, us)) rest := by
              simp [impLoop, hval, hvalid, hrt, Val.isShareableAcrossImpersonation]
            have hlast : lastImpersonated (s :: rest) acc
                = lastImpersonated rest (some (u, us)) := by
              simp [lastImpersonated, hval, hvalid, hrt]
            rw [hstep, hlast]
            simp only [List.filterMap_cons, hsel] at hnd hfresh ⊢
            exact ih fk (some (u, us)) hnd hfresh hwfrest
          · have hstep : impLoop fk acc (s :: rest) = impLoop fk acc rest := by
              simp [impLoop, hval, hvalid, hsai, hrt]
            have hlast : lastImpersonated (s :: rest) acc = lastImpersonated rest acc := by
              simp [lastImpersonated, hrt]
            rw [hstep, hlast]
            simp only [List.filterMap_cons, hsel] at hnd hfresh ⊢
            exact ih fk acc hnd hfresh hwfrest

theorem impersonate_ok (c : Ctx) (tag : Nat) (uuid : String) (hwf : c.wf) :
    impersonate c tag uuid
      = .ok { c.fork tag with
              values := ctxSelfSlot :: (validShareImpPairs c).map pairSlot
                ++ [⟨.impersonated,
                     some (.impersonatedVal uuid (impPriorChain c ++ [uuid])), true⟩] } := by
  have hnd : ((validShareImpPairs c).map Prod.fst).Nodup :=
    ((sel_fst_sublist selShareImp selShareImp_rt c.values).nodup hwf.1)
  have hctx : TypeId.context ∉ (validShareImpPairs c).map Prod.fst :=
    wf_context_not_shareImp c hwf
  have himp : TypeId.impersonated ∉ (validShareImpPairs c).map Prod.fst :=
    wf_imp_not_shareImp c hwf
  have hfresh : ∀ t ∈ (validShareImpPairs c).map Prod.fst,
      t ∉ (c.fork tag).values.map (·.rt) := by
    intro t hmem
    simp only [Ctx.fork, newContext, List.map_cons, List.map_nil, ctxSelfSlot]
    intro hc
    simp at hc
    rw [hc] at hmem
    exact hctx hmem
  have h1 : impLoop (c.fork tag) none c.values
      = .ok ({ c.fork tag with
               values := (c.fork tag).values ++ (validShareImpPairs c).map pairSlot },
             lastImpersonated c.values none) :=
    impLoop_ok c.values (c.fork tag) none hnd hfresh (fun s hs => hwf.2.2.2 s hs)
  have hnoimp : ¬ ((({ c.fork tag with
        values := (c.fork tag).values ++ (validShareImpPairs c).map pairSlot } : Ctx).values.any
          (fun s => s.rt == TypeId.impersonated)) = true) := by
    intro hany
    rw [List.any_eq_true] at hany
    obtain ⟨s, hs, heq⟩ := hany
    have heq2 : s.rt = TypeId.impersonated := by simpa using heq
    have hs2 : s = ctxSelfSlot ∨ s ∈ (validShareImpPairs c).map pairSlot := by
      simpa [Ctx.fork, newContext] using hs
    rcases hs2 with hs1 | hs1
    · rw [hs1] at heq2
      simp [ctxSelfSlot] at heq2
    · obtain ⟨p, hp, hps⟩ := List.mem_map.mp hs1
      rw [← hps] at heq2
      simp only [pairSlot] at heq2
      exact himp (List.mem_map.mpr ⟨p, hp, heq2⟩)
  simp only [impersonate, h1, Ctx.storeValue, hnoimp, if_false]
  simp [Ctx.fork, newContext, impPriorChain]

/-- C3: an internal call runs the callee in a freshly forked Context (same
Factory and MethodHandler, the caller as parent) whose slot list before
dispatch is exactly its own self slot, the caller's valid Shareable slots
in order, and the fresh internal RpcMeta; the caller's slot list is only
read, so it is unchanged after the nested call returns. An impersonation
scope forks likewise and copies exactly the caller's valid
ShareableAcrossImpersonation slots, plus a new Impersonated slot whose
trace appends the impersonated account to any existing trace. -/
theorem internal_call_frame (c : Ctx) (tag tag2 fuel : Nat) (m : String)
    (hm : RpcHttpMethod) (uuid : String) (f : Factory) (enc : String → String)
    (ep : EndpointSpec) (fields : List String) (raw : String) (hwf : c.wf) :
    callMethodFork c tag m hm
      = .ok { c.fork tag with
              values := ctxSelfSlot :: (validSharePairs c).map pairSlot
                ++ [⟨.rpcMeta, some (.rpcMetaVal m hm .internal), true⟩] }
    ∧ (c.fork tag).parentTag = c.selfTag
    ∧ (c.fork tag).factoryTag = c.factoryTag
    ∧ (c.fork tag).methodHandlerTag = c.methodHandlerTag
    ∧ (c.fork tag).finalized = false
    ∧ (callMethodRun f fuel enc ep c tag m hm fields raw).2 = c
    ∧ impersonate c tag2 uuid
      = .ok { c.fork tag2 with
              values := ctxSelfSlot :: (validShareImpPairs c).map pairSlot
                ++ [⟨.impersonated,
                     some (.impersonatedVal uuid (impPriorChain c ++ [uuid])), true⟩] } := by
  refine ⟨callMethodFork_ok c tag m hm hwf, rfl, rfl, rfl, rfl, ?_,
    impersonate_ok c tag2 uuid hwf⟩
  unfold callMethodRun
  cases callMethodFork c tag m hm <;> rfl

/-- C3 witness: the caller fixture (a Shareable value, a
ShareableAcrossImpersonation value, an in-progress slot, an existing
impersonation of alice) forked for an internal call and impersonating bob. -/
theorem internal_call_frame_witness :
    callMethodFork callerCtx 2 "sys/echo.v1" .post
      = .ok { callerCtx.fork 2 with
              values := [ctxSelfSlot,
                ⟨.other 3, some (.generic 3 true false false none), true⟩,
                ⟨.impersonated, some (.impersonatedVal "alice" ["alice"]), true⟩,
                ⟨.rpcMeta, some (.rpcMetaVal "sys/echo.v1" .post .internal), true⟩] }
    ∧ impersonate callerCtx 3 "bob"
      = .ok { callerCtx.fork 3 with
              values := [ctxSelfSlot,
                ⟨.other 4, some (.generic 4 false true false none), true⟩,
                ⟨.impersonated, some (.impersonatedVal "bob" ["alice", "bob"]), true⟩] } := by
  have h := internal_call_frame callerCtx 2 3 0 "sys/echo.v1" .post "bob"
    (fun _ => none) id ⟨[], none, .ok none⟩ [] ""
    (by
      refine ⟨by decide, ?_, ?_, ?_⟩ <;>
        · intro s hs hv hrt
          fin_cases hs <;> simp_all [ctxSelfSlot, Val.isCtxSelf, Val.isRpcMetaVal,
            Val.isImpersonatedVal])
  refine ⟨h.1.trans ?_, h.2.2.2.2.2.2.trans ?_⟩
  · rfl
  · rfl

theorem char_toNat_inj (c d : Char) (h : c.toNat = d.toNat) : c = d := by
  have := congrArg Char.ofNat h
  simpa using this

theorem toNat_ofNat_valid (n : Nat) (h : n.isValidChar) : (Char.ofNat n).toNat = n := by
  rw [Char.ofNat, dif_pos h]
  rfl

theorem kebab_char_facts (c : Char) (h : isKebabChar c = true) :
    isUpperAZ c = false ∧ c ≠ '_' ∧ isValidIdentChar c = true ∧ c ≠ '/' ∧ c ≠ '.' := by
  have h2 : ((97 ≤ c.toNat ∧ c.toNat ≤ 122) ∨ (48 ≤ c.toNat ∧ c.toNat ≤ 57)) ∨ c = '-' := by
    simpa [isKebabChar, isLowerAZ, isDigit09, Bool.or_eq_true, and_assoc] using h
  rcases h2 with (h2 | h2) | h2
  · refine ⟨by simp [isUpperAZ]; omega, ?_, ?_, ?_, ?_⟩
    · intro he; rw [he] at h2; revert h2; decide
    · simp [isValidIdentChar, isLowerAZ]
      omega
    · intro he; rw [he] at h2; revert h2; decide
    · intro he; rw [he] at h2; revert h2; decide
  · refine ⟨by simp [isUpperAZ]; omega, ?_, ?_, ?_, ?_⟩
    · intro he; rw [he] at h2; revert h2; decide
    · simp [isValidIdentChar, isDigit09]
      omega
    · intro he; rw [he] at h2; revert h2; decide
    · intro he; rw [he] at h2; revert h2; decide
  · subst h2
    refine ⟨by decide, by decide, by decide, by decide, by decide⟩

theorem digit_char_facts (c : Char) (h : isDigit09 c = true) :
    c ≠ '+' ∧ c ≠ '-' ∧ c ≠ '/' ∧ c ≠ '.' := by
  have h2 : 48 ≤ c.toNat ∧ c.toNat ≤ 57 := by simpa [isDigit09] using h
  refine ⟨?_, ?_, ?_, ?_⟩ <;>
    · intro he; rw [he] at h2; revert h2; decide

theorem digitChar_isDigit (d : Nat) (h : d < 10) : isDigit09 (digitChar d) = true := by
  interval_cases d <;> decide

theorem digitChar_val (d : Nat) (h : d < 10) : (digitChar d).toNat - 48 = d := by
  interval_cases d <;> decide

theorem natDigitsAux_zero (fuel : Nat) : natDigitsAux fuel 0 = [] := by
  cases fuel <;> simp [natDigitsAux]

theorem natDigitsAux_spec (fuel : Nat) :
    ∀ v, v < 10 ^ fuel → v ≠ 0 →
      (∀ c ∈ natDigitsAux fuel v, isDigit09 c = true)
      ∧ natDigitsAux fuel v ≠ []
      ∧ (natDigitsAux fuel v).foldl (fun a c => 10 * a + (c.toNat - 48)) 0 = v := by
  induction fuel with
  | zero =>
    intro v hlt hne
    simp at hlt
    omega
  | succ fuel ih =>
    intro v hlt hne
    have hdef : natDigitsAux (fuel + 1) v
        = natDigitsAux fuel (v / 10) ++ [digitChar (v % 10)] := by
      simp [natDigitsAux, hne]
    by_cases hq : v / 10 = 0
    · rw [hdef, hq, natDigitsAux_zero]
      have hmod : v % 10 = v := by omega
      refine ⟨?_, by simp, ?_⟩
      · intro c hc
        simp at hc
        rw [hc]
        exact digitChar_isDigit _ (by omega)
      · simp [digitChar_val (v % 10) (by omega)]
        omega
    · have hqlt : v / 10 < 10 ^ fuel := by
        rw [Nat.div_lt_iff_lt_mul (by norm_num)]
        calc v < 10 ^ (fuel + 1) := hlt
        _ = 10 ^ fuel * 10 := by ring
      obtain ⟨hdig, hne2, hfold⟩ := ih (v / 10) hqlt hq
      rw [hdef]
      refine ⟨?_, by simp, ?_⟩
      · intro c hc
        rw [List.mem_append] at hc
        rcases hc with hc | hc
        · exact hdig c hc
        · simp at hc
          rw [hc]
          exact digitChar_isDigit _ (by omega)
      · rw [List.foldl_append, hfold]
        simp [digitChar_val (v % 10) (by omega)]
        omega

theorem natToDigitsList_spec (v : Nat) (h0 : 0 < v) :
    (∀ c ∈ natToDigitsList v, isDigit09 c = true)
    ∧ natToDigitsList v ≠ []
    ∧ parseDigits (natToDigitsList v) = some v := by
  have hne : v ≠ 0 := by omega
  have hfuel : v < 10 ^ (v + 1) := by
    calc v < 10 ^ v := Nat.lt_pow_self (by norm_num) v
    _ ≤ 10 ^ (v + 1) := Nat.pow_le_pow_right (by norm_num) (by omega)
  obtain ⟨hdig, hne2, hfold⟩ := natDigitsAux_spec (v + 1) v hfuel hne
  have hlist : natToDigitsList v = natDigitsAux (v + 1) v := by
    simp [natToDigitsList, hne]
  rw [hlist]
  refine ⟨hdig, hne2, ?_⟩
  unfold parseDigits
  rw [if_neg (by simpa [List.isEmpty_iff] using hne2),
    if_pos (by rw [List.all_eq_true]; exact hdig)]
  rw [hfold]

theorem dropLeadSlash_no_slash (c : Char) (l : List Char) (h : c ≠ '/') :
    dropLeadSlash (c :: l) = c :: l := by
  simp [dropLeadSlash, h]

theorem splitSlash_no_slash (l : List Char) (h : ∀ c ∈ l, c ≠ '/') :
    splitSlash l = [l] := by
  induction l with
  | nil => rfl
  | cons c rest ih =>
    have hc : c ≠ '/' := h c (by simp)
    have := ih (fun d hd => h d (by simp [hd]))
    simp [splitSlash, hc, this]

theorem splitSlash_append (a b : List Char) (ha : ∀ c ∈ a, c ≠ '/') :
    splitSlash (a ++ '/' :: b) = a :: splitSlash b := by
  induction a with
  | nil => simp [splitSlash]
  | cons c a2 ih =>
    have hc : c ≠ '/' := ha c (by simp)
    have := ih (fun d hd => ha d (by simp [hd]))
    simp [splitSlash, hc, this]

theorem splitDotV_cons_ne (c : Char) (l : List Char) (hne : l ≠ []) (hc : c ≠ '.') :
    splitDotV (c :: l) = match splitDotV l with
      | [] => [[c]]
      | h :: t => (c :: h) :: t := by
  cases l with
  | nil => exact absurd rfl hne
  | cons c2 rest => simp [splitDotV, hc]

theorem splitDotV_no_dot (l : List Char) (h : ∀ c ∈ l, c ≠ '.') :
    splitDotV l = [l] := by
  induction l with
  | nil => rfl
  | cons c rest ih =>
    have hc : c ≠ '.' := h c (by simp)
    have hrest := ih (fun d hd => h d (by simp [hd]))
    cases rest with
    | nil => rfl
    | cons c2 rest2 =>
      rw [splitDotV_cons_ne c _ (by simp) hc, hrest]

theorem splitDotV_append (a b : List Char) (ha : ∀ c ∈ a, c ≠ '.')
    (hb : ∀ c ∈ b, c ≠ '.') :
    splitDotV (a ++ '.' :: 'v' :: b) = [a, b] := by
  induction a with
  | nil =>
    simp only [List.nil_append]
    rw [show splitDotV ('.' :: 'v' :: b) = [] :: splitDotV b by simp [splitDotV]]
    rw [splitDotV_no_dot b hb]
  | cons c a2 ih =>
    have hc : c ≠ '.' := ha c (by simp)
    have ha2 := ih (fun d hd => ha d (by simp [hd]))
    rw [List.cons_append,
      splitDotV_cons_ne c _ (by simp) hc, ha2]

theorem capPass1_fixed (l : List Char) (h : ∀ c ∈ l, isUpperAZ c = false) :
    capPass1 l = l := by
  induction l with
  | nil => rfl
  | cons a tl ih =>
    have ha : isUpperAZ a = false := h a (by simp)
    have htl := ih (fun d hd => h d (by simp [hd]))
    cases tl with
    | nil => rfl
    | cons b tl2 =>
      cases tl2 with
      | nil => rfl
      | cons c tl3 =>
        simp only [capPass1, ha, Bool.false_and, Bool.false_eq_true, if_false]
        rw [htl]

theorem capPass2_fixed (l : List Char) (h : ∀ c ∈ l, isUpperAZ c = false) :
    capPass2 l = l := by
  induction l with
  | nil => rfl
  | cons a tl ih =>
    have htl := ih (fun d hd => h d (by simp [hd]))
    cases tl with
    | nil => rfl
    | cons b tl2 =>
      have hb : isUpperAZ b = false := h b (by simp)
      simp only [capPass2, hb, Bool.and_false, Bool.false_eq_true, if_false]
      rw [htl]

theorem map_underscore_fixed (l : List Char) (h : ∀ c ∈ l, c ≠ '_') :
    l.map (fun c => if c = '_' then '-' else c) = l := by
  induction l with
  | nil => rfl
  | cons a tl ih =>
    have ha : a ≠ '_' := h a (by simp)
    have := ih (fun d hd => h d (by simp [hd]))
    simp [ha, this]

theorem map_lower_fixed (l : List Char) (h : ∀ c ∈ l, isUpperAZ c = false) :
    l.map goToLowerChar = l := by
  induction l with
  | nil => rfl
  | cons a tl ih =>
    have ha : isUpperAZ a = false := h a (by simp)
    have := ih (fun d hd => h d (by simp [hd]))
    simp [goToLowerChar, ha, this]

theorem toKebabCase_fixed (l : List Char) (h : ∀ c ∈ l, isKebabChar c = true) :
    toKebabCase l = l := by
  have hup : ∀ c ∈ l, isUpperAZ c = false := fun c hc => (kebab_char_facts c (h c hc)).1
  have hus : ∀ c ∈ l, c ≠ '_' := fun c hc => (kebab_char_facts c (h c hc)).2.1
  unfold toKebabCase
  rw [capPass1_fixed l hup, capPass2_fixed l hup, map_underscore_fixed l hus,
    map_lower_fixed l hup]

theorem goToLower_not_upper (c : Char) : isUpperAZ (goToLowerChar c) = false := by
  unfold goToLowerChar
  cases hu : isUpperAZ c with
  | false => simp [hu]
  | true =>
    rw [if_pos rfl]
    have hb : 65 ≤ c.toNat ∧ c.toNat ≤ 90 := by simpa [isUpperAZ] using hu
    have hv : (c.toNat + 32).isValidChar := by
      left
      omega
    simp only [isUpperAZ, toNat_ofNat_valid _ hv]
    simp
    omega

theorem toKebabCase_no_upper (l : List Char) (h : toKebabCase l = l) :
    ∀ c ∈ l, isUpperAZ c = false := by
  intro c hc
  rw [← h] at hc
  unfold toKebabCase at hc
  obtain ⟨d, _, hd⟩ := List.mem_map.mp hc
  rw [← hd]
  exact goToLower_not_upper d

theorem valid_fixed_kebab (l : List Char) (hv : validIdentifierName l = true)
    (hf : toKebabCase l = l) : isKebabIdent l = true := by
  obtain ⟨hne, hall⟩ : ¬ l.isEmpty = true ∧ l.all isValidIdentChar = true := by
    simpa [validIdentifierName] using hv
  have hup := toKebabCase_no_upper l hf
  unfold isKebabIdent
  rw [List.all_eq_true] at hall
  have hall2 : l.all isKebabChar = true := by
    rw [List.all_eq_true]
    intro c hc
    have h1 := hall c hc
    have h2 := hup c hc
    simp only [isValidIdentChar, Bool.or_eq_true] at h1
    simp only [isKebabChar, Bool.or_eq_true]
    rcases h1 with ((h1 | h1) | h1) | h1
    · rw [h1] at h2
      simp at h2
    · exact Or.inl (Or.inl h1)
    · exact Or.inl (Or.inr h1)
    · exact Or.inr h1
  simp only [Bool.and_eq_true]
  exact ⟨by simpa using hne, hall2⟩

theorem kebab_validIdent (l : List Char) (h : isKebabIdent l = true) :
    validIdentifierName l = true := by
  obtain ⟨hne, hall⟩ : (!l.isEmpty) = true ∧ l.all isKebabChar = true := by
    simpa [isKebabIdent, Bool.and_eq_true] using h
  unfold validIdentifierName
  rw [Bool.and_eq_true]
  refine ⟨hne, ?_⟩
  rw [List.all_eq_true] at hall ⊢
  intro c hc
  exact (kebab_char_facts c (hall c hc)).2.2.1

theorem parseInt64_digits (v : Nat) (h0 : 0 < v) (hb : v < 2 ^ 63) :
    parseInt64 (natToDigitsList v) = some ((v : Nat) : Int) := by
  obtain ⟨hdig, hne, hparse⟩ := natToDigitsList_spec v h0
  obtain ⟨c, rest, hc⟩ : ∃ c rest, natToDigitsList v = c :: rest := by
    cases hl : natToDigitsList v with
    | nil => exact absurd hl hne
    | cons a b => exact ⟨a, b, rfl⟩
  have hcd : isDigit09 c = true := hdig c (by rw [hc]; simp)
  obtain ⟨hplus, hminus, _, _⟩ := digit_char_facts c hcd
  rw [hc]
  simp only [parseInt64]
  rw [if_neg hplus, if_neg hminus, ← hc, hparse]
  simp only [Option.some_bind]
  rw [if_pos (by unfold maxInt64; omega)]

theorem parseInt64_le (l : List Char) (i : Int) (h : parseInt64 l = some i)
    (hpos : 0 < i) : i ≤ (maxInt64 : Int) := by
  have hmax : (0 : Int) ≤ (maxInt64 : Int) := by positivity
  cases l with
  | nil => simp [parseInt64] at h
  | cons c rest =>
    simp only [parseInt64] at h
    split_ifs at h
    · cases hp : parseDigits rest with
      | none => rw [hp] at h; simp at h
      | some n =>
        rw [hp] at h
        simp only [Option.some_bind] at h
        split_ifs at h with hle
        have h2 : ((n : Nat) : Int) = i := by simpa using h
        omega
    · cases hp : parseDigits rest with
      | none => rw [hp] at h; simp at h
      | some n =>
        rw [hp] at h
        simp only [Option.some_bind] at h
        split_ifs at h with hle
        have h2 : -((n : Nat) : Int) = i := by simpa using h
        omega
    · cases hp : parseDigits (c :: rest) with
      | none => rw [hp] at h; simp at h
      | some n =>
        rw [hp] at h
        simp only [Option.some_bind] at h
        split_ifs at h with hle
        have h2 : ((n : Nat) : Int) = i := by simpa using h
        omega

theorem parse_format_roundtrip (s m : List Char) (v : Nat)
    (hs : isKebabIdent s = true) (hm : isKebabIdent m = true)
    (hv : 0 < v) (hv2 : v < 2 ^ 63) :
    parseRpcMethod (getDefaultMethodName s m v) = .ok (s, m, v) := by
  obtain ⟨hsne, hsall⟩ : (!s.isEmpty) = true ∧ s.all isKebabChar = true := by
    simpa [isKebabIdent, Bool.and_eq_true] using hs
  obtain ⟨hmne, hmall⟩ : (!m.isEmpty) = true ∧ m.all isKebabChar = true := by
    simpa [isKebabIdent, Bool.and_eq_true] using hm
  rw [List.all_eq_true] at hsall hmall
  obtain ⟨hdig, hdne, hdparse⟩ := natToDigitsList_spec v hv
  have hs_noslash : ∀ c ∈ s, c ≠ '/' := fun c hc => (kebab_char_facts c (hsall c hc)).2.2.2.1
  have hm_nodot : ∀ c ∈ m, c ≠ '.' := fun c hc => (kebab_char_facts c (hmall c hc)).2.2.2.2
  have hd_nodot : ∀ c ∈ natToDigitsList v, c ≠ '.' :=
    fun c hc => (digit_char_facts c (hdig c hc)).2.2.2
  have htail_noslash : ∀ c ∈ (m ++ '.' :: 'v' :: natToDigitsList v), c ≠ '/' := by
    intro c hc
    rw [List.mem_append] at hc
    rcases hc with hc | hc
    · exact fun he => absurd (hmall c hc) (by rw [he]; decide)
    · rcases List.mem_cons.mp hc with rfl | hc
      · decide
      · rcases List.mem_cons.mp hc with rfl | hc
        · decide
        · exact (digit_char_facts c (hdig c hc)).2.2.1
  obtain ⟨c0, s2, hs0⟩ : ∃ c0 s2, s = c0 :: s2 := by
    cases hsl : s with
    | nil => rw [hsl] at hsne; simp at hsne
    | cons a b => exact ⟨a, b, rfl⟩
  have hstep1 : dropLeadSlash (getDefaultMethodName s m v) = getDefaultMethodName s m v := by
    unfold getDefaultMethodName
    rw [hs0, List.cons_append]
    exact dropLeadSlash_no_slash _ _ (hs_noslash c0 (by rw [hs0]; simp))
  have h2 : splitSlash (getDefaultMethodName s m v)
      = [s, m ++ '.' :: 'v' :: natToDigitsList v] := by
    unfold getDefaultMethodName
    rw [splitSlash_append _ _ hs_noslash, splitSlash_no_slash _ htail_noslash]
  have h3 : splitDotV (m ++ '.' :: 'v' :: natToDigitsList v) = [m, natToDigitsList v] :=
    splitDotV_append m _ hm_nodot hd_nodot
  have h4 : parseInt64 (natToDigitsList v) = some ((v : Nat) : Int) :=
    parseInt64_digits v hv hv2
  have hvs : validIdentifierName s = true := kebab_validIdent s hs
  have hvm : validIdentifierName m = true := kebab_validIdent m hm
  have hks : toKebabCase s = s := toKebabCase_fixed s hsall
  have hkm : toKebabCase m = m := toKebabCase_fixed m hmall
  simp only [parseRpcMethod, hstep1, h2, h3, h4]
  rw [if_neg (by omega : ¬ ((v : Nat) : Int) ≤ 0),
    if_neg (by simp [hvs]), if_neg (by simp [hvm]),
    if_neg (by simp [hks]), if_neg (by simp [hkm])]
  simp

theorem parse_ok_kebab (slug s m : List Char) (v : Nat)
    (h : parseRpcMethod slug = .ok (s, m, v)) :
    isKebabIdent s = true ∧ isKebabIdent m = true ∧ 0 < v ∧ v < 2 ^ 63 := by
  unfold parseRpcMethod at h
  split at h
  case _ system rest =>
    split at h
    case _ method verStr =>
      split at h
      case _ => simp at h
      case _ version hver =>
        split_ifs at h with h1 h2 h3 h4 h5
        rw [Except.ok.injEq, Prod.mk.injEq, Prod.mk.injEq] at h
        obtain ⟨hsys, hmeth, hv2⟩ := h
        rw [hsys] at h2 h4
        rw [hmeth] at h3 h5
        have hvs : validIdentifierName s = true := by simpa using h2
        have hvm : validIdentifierName m = true := by simpa using h3
        have hks : toKebabCase s = s := by simpa using h4
        have hkm : toKebabCase m = m := by simpa using h5
        have hpos : 0 < version := by omega
        have hle := parseInt64_le _ version hver hpos
        refine ⟨valid_fixed_kebab s hvs hks, valid_fixed_kebab m hvm hkm, by omega, ?_⟩
        have hm64 : (maxInt64 : Int) = 2 ^ 63 - 1 := by unfold maxInt64; norm_num
        omega
    case _ h2 => simp at h
  case _ h1 => simp at h

/-- C7 counterexample: the parse/format pair does not reject every
non-kebab identifier, and the round trip does not hold for every positive
version. The system "/a" is not kebab (it contains a slash), yet parsing
its formatted key succeeds — TrimPrefix strips the leading slash and the
result is the different triple ("a", "m", 1), with no error. And for the
positive version 2^63, parsing the formatted key fails, because
ParseRpcMethod reads the version with strconv.ParseInt(...,10,64) whereas
GetDefaultMethodName formats a uint64. -/
theorem parse_format_counterexample :
    parseRpcMethod (getDefaultMethodName ['/', 'a'] ['m'] 1) = .ok (['a'], ['m'], 1)
    ∧ isKebabIdent ['/', 'a'] = false
    ∧ (['a'] : List Char) ≠ ['/', 'a']
    ∧ parseRpcMethod (getDefaultMethodName ['a'] ['m'] (2 ^ 63))
        = .error "version not of type integer"
    ∧ 0 < 2 ^ 63 :=
  ⟨rfl, by decide, by decide, rfl, by norm_num⟩

/-- C7 (amended): parsing the formatted endpoint key
"system/method.v<version>" returns exactly (system, method, version) if and
only if system and method are non-empty lowercase-kebab identifiers and the
version satisfies 0 < version < 2^63; in every other case the parse either
fails with an error or returns a different triple (a leading slash on the
system is stripped, and versions of 2^63 or more are rejected by the int64
parse). -/
theorem parse_format_characterization (s m : List Char) (v : Nat) :
    parseRpcMethod (getDefaultMethodName s m v) = .ok (s, m, v)
    ↔ (isKebabIdent s = true ∧ isKebabIdent m = true ∧ 0 < v ∧ v < 2 ^ 63) := by
  constructor
  · intro h
    exact parse_ok_kebab _ s m v h
  · rintro ⟨hs, hm, hv, hv2⟩
    exact parse_format_roundtrip s m v hs hm hv hv2

end Jonson
